import Mathlib

/-!
Shallow embedding of the knirvbase replication / conflict-resolution /
at-rest-encryption core (Rust sources under `src/rust/src/`), together with
proofs and refutations of the specification's claims.

Modelling conventions, used consistently below:
* Rust `HashMap<String, V>` values are modelled as association lists
  `List (String × V)` with pairwise-distinct keys (the `HashMap` invariant);
  map equality is lookup equality on every key, which coincides with the
  `HashMap` notion of equality for duplicate-free association lists.
  Iteration order over a `HashMap` is unspecified in Rust; every modelled
  iteration below is order-insensitive at the level of the properties proved.
* Rust `i64` counters and timestamps are modelled as `Int` (no arithmetic in
  the sources can overflow an `i64` on the inputs considered).
* `serde_json::Value` is modelled by the inductive `Json` (numbers as `Int`:
  no fractional numbers occur in the specified behaviour).
* Fallible Rust functions returning `Result<T, E>` are modelled as
  `Except String T`, string-typed error messages copied from the source.
-/

/-- JSON-compatible values (`serde_json::Value`); objects are association
lists of fields, numbers are modelled as integers. -/
inductive Json where
  | null : Json
  | bool : Bool → Json
  | num : Int → Json
  | str : String → Json
  | arr : List Json → Json
  | obj : List (String × Json) → Json

/-- `String::ends_with` modelled on the character list of the string. -/
def endsWithS (s suffix : String) : Bool := suffix.data.isSuffixOf s.data

namespace HMap

/-- `HashMap::insert` on an association list: overwrite the entry when the
key is present, append a fresh entry otherwise. -/
def insert {β : Type} (m : List (String × β)) (k : String) (x : β) :
    List (String × β) :=
  if (List.lookup k m).isSome then
    m.map (fun p => if p.1 == k then (p.1, x) else p)
  else m ++ [(k, x)]

/-- `HashMap::remove` on an association list. -/
def remove {β : Type} (m : List (String × β)) (k : String) :
    List (String × β) :=
  m.filter (fun p => !(p.1 == k))

/-- The key list of an association list. -/
def keys {β : Type} (m : List (String × β)) : List String := m.map Prod.fst

/-- Lookup with default `0`, the semantics of an absent vector-clock entry. -/
def getD (m : List (String × Int)) (k : String) : Int :=
  (List.lookup k m).getD 0

end HMap

/-- `clock.rs`: `ComparisonResult` is the relationship between two vector
clocks. -/
inductive ComparisonResult where
  | Equal : ComparisonResult
  | Before : ComparisonResult
  | After : ComparisonResult
  | Concurrent : ComparisonResult
deriving DecidableEq

/-- `clock.rs`: `VectorClock` maps peer IDs to `i64` counters. -/
abbrev VectorClock := List (String × Int)

namespace VectorClock

/-- `VectorClock::new`: the empty clock. -/
def new : VectorClock := []

/-- `clock.rs` `increment`: `self.0.entry(peer_id).or_insert(0)` then `+= 1` —
an absent peer gets counter `1`, a present peer's counter is raised by one. -/
def increment (v : VectorClock) (peerId : String) : VectorClock :=
  if (List.lookup peerId v).isSome then
    v.map (fun p => if p.1 == peerId then (p.1, p.2 + 1) else p)
  else v ++ [(peerId, 1)]

/-- One iteration of the `merge` loop of `clock.rs`: for an entry `(k, v)` of
`other`, `merged.entry(k).or_insert(0)`, then overwrite with `v` when
`v > *entry`. -/
def mergeStep (merged : VectorClock) (kv : String × Int) : VectorClock :=
  let entry := HMap.getD merged kv.1
  let merged :=
    if (List.lookup kv.1 merged).isSome then merged else merged ++ [(kv.1, 0)]
  if kv.2 > entry then
    merged.map (fun p => if p.1 == kv.1 then (p.1, kv.2) else p)
  else merged

/-- `clock.rs` `merge`: start from a copy of `self` and fold the loop body
over the entries of `other`. -/
def merge (v other : VectorClock) : VectorClock :=
  other.foldl mergeStep v

/-- The `has_greater` flag of `clock.rs` `compare`: some key of the union of
the key sets has a strictly greater counter in `v` (absent keys read `0`). -/
def hasGreaterB (v other : VectorClock) : Bool :=
  (HMap.keys v ++ HMap.keys other).any
    (fun k => HMap.getD v k > HMap.getD other k)

/-- The `has_less` flag of `clock.rs` `compare`. -/
def hasLessB (v other : VectorClock) : Bool :=
  (HMap.keys v ++ HMap.keys other).any
    (fun k => HMap.getD v k < HMap.getD other k)

/-- `clock.rs` `compare`: iterate the union of the key sets, set the
`has_greater` / `has_less` flags pointwise (absent keys count as `0`), and
classify the flag pair. -/
def compare (v other : VectorClock) : ComparisonResult :=
  match hasGreaterB v other, hasLessB v other with
  | false, false => ComparisonResult.Equal
  | true, false => ComparisonResult.After
  | false, true => ComparisonResult.Before
  | true, true => ComparisonResult.Concurrent

/-- `clock.rs` `happens_before`: `compare` yields `Before` or `Equal`. -/
def happens_before (v other : VectorClock) : Bool :=
  match compare v other with
  | ComparisonResult.Before => true
  | ComparisonResult.Equal => true
  | _ => false

/-- Pointwise strict domination at some coordinate: the proposition tracked by
the `has_greater` flag of `compare`. -/
def HasG (v w : VectorClock) : Prop := ∃ k, HMap.getD v k > HMap.getD w k

/-- The entries of a vector clock are non-negative: the data-model invariant
of §3 of the specification (counters are non-negative and never decrease). -/
def NonNeg (v : VectorClock) : Prop := ∀ q ∈ v, 0 ≤ q.2

/-- Equality of two association-list maps as `HashMap`s: the lookup of every
key agrees (key presence included). -/
def MapEqv (v w : VectorClock) : Prop :=
  ∀ k, List.lookup k v = List.lookup k w

end VectorClock

/-- `types.rs` `EntryType`: the kind of data stored. -/
inductive EntryType where
  | Memory : EntryType
  | Auth : EntryType
deriving DecidableEq

/-- `types.rs` `DistributedDocument`: a document augmented with CRDT
metadata. -/
structure DistributedDocument where
  id : String
  entry_type : EntryType
  payload : Option (List (String × Json))
  vector : VectorClock
  timestamp : Int
  peer_id : String
  stage : Option String
  deleted : Bool

/-- `types.rs` `OperationType`: CRDT operation kinds. -/
inductive OperationType where
  | Insert : OperationType
  | Update : OperationType
  | Delete : OperationType
deriving DecidableEq

/-- `types.rs` `CRDTOperation`: a change to be synchronized. -/
structure CRDTOperation where
  id : String
  op_type : OperationType
  collection : String
  document_id : String
  data : Option DistributedDocument
  vector : VectorClock
  timestamp : Int
  peer_id : String

/-- Stable insertion into a list already sorted by the total preorder `le`. -/
def sortedInsert {α : Type} (le : α → α → Bool) (x : α) : List α → List α
  | [] => [x]
  | y :: ys => if le x y then x :: y :: ys else y :: sortedInsert le x ys

/-- Rust's `sort_by` is a stable sort; it is modelled (extensionally, for a
total preorder) by stable insertion sort. -/
def stableSort {α : Type} (le : α → α → Bool) : List α → List α
  | [] => []
  | x :: xs => sortedInsert le x (stableSort le xs)

/-- The loop of Rust `Vec::dedup_by`: the candidate element is compared with
the closest RETAINED element before it and removed when `same` holds, so only
consecutive duplicates are removed. -/
def dedupByKeep {α : Type} (same : α → α → Bool) (last : α) : List α → List α
  | [] => []
  | y :: ys =>
    if same y last then dedupByKeep same last ys
    else y :: dedupByKeep same y ys

/-- Rust `Vec::dedup_by` (keeps the first of each run of equal elements). -/
def dedupBy {α : Type} (same : α → α → Bool) : List α → List α
  | [] => []
  | x :: xs => x :: dedupByKeep same x xs

namespace CRDTResolver

/-- `resolver.rs` `resolve_conflicts`: sort by
`|a, b| b.timestamp.cmp(&a.timestamp)` (stable, descending timestamp), then
`dedup_by(|a, b| a.document_id == b.document_id)`. -/
def resolve_conflicts (operations : List CRDTOperation) :
    List CRDTOperation :=
  dedupBy (fun a b => a.document_id == b.document_id)
    (stableSort (fun a b => decide (b.timestamp ≤ a.timestamp)) operations)

/-- `resolver.rs` `merge_documents`: classify the two versions by vector-clock
comparison; `Equal`/`Before` yield `remote`, `After` yields `local`, and
`Concurrent` merges the payloads (remote overwriting local field-wise, only
when both payloads are present), merges the vectors and takes the max
timestamp, starting from a clone of `local`. -/
def merge_documents (localDoc remoteDoc : DistributedDocument) :
    DistributedDocument :=
  match VectorClock.compare localDoc.vector remoteDoc.vector with
  | ComparisonResult.Equal => remoteDoc
  | ComparisonResult.Before => remoteDoc
  | ComparisonResult.After => localDoc
  | ComparisonResult.Concurrent =>
    let merged := localDoc
    let merged :=
      match localDoc.payload, remoteDoc.payload with
      | some localPayload, some remotePayload =>
        { merged with
            payload := some (remotePayload.foldl
              (fun m (kv : String × Json) => HMap.insert m kv.1 kv.2)
              localPayload) }
      | _, _ => merged
    { merged with
        vector := VectorClock.merge localDoc.vector remoteDoc.vector
        timestamp := max localDoc.timestamp remoteDoc.timestamp }

end CRDTResolver

/-- The operations of the `EncryptionManager` as used by `FileStorage`
(`storage.rs` owns one); the storage layer is parametric in them.
`masterKeyId` models `get_master_key().map(|kp| kp.id)` together with the
presence check of `encrypt_document`. -/
structure EncOps where
  masterKeyId : Option String
  encryptData : List Nat → String → Except String String
  decryptData : String → Except String (List Nat)

/-- The `serde_json` byte boundary (`to_vec` / `from_slice`) for payload
VALUES crossing the encryption manager, abstract parameters of the storage
layer. -/
structure SerdeOps where
  toBytes : Json → List Nat
  ofBytes : List Nat → Except String Json

/-- The on-disk state seen by `FileStorage`: document files and blob files by
path. A file stores the parsed JSON of its contents (whole-document byte
serialization round-trips and is modelled as the identity); directories are
implicit, so `fs::create_dir_all` is a no-op of the model. -/
structure FS where
  files : List (String × Json)
  blobs : List (String × Json)

namespace FileStorage

/-- `storage.rs` `get_collection_dir`. -/
def get_collection_dir (baseDir collection : String) : String :=
  baseDir ++ "/" ++ collection

/-- `storage.rs` `get_doc_path`. -/
def get_doc_path (baseDir collection id : String) : String :=
  get_collection_dir baseDir collection ++ "/" ++ id ++ ".json"

/-- The blob path `<collection dir>/blobs/<id>` of `save_blob`/`delete`. -/
def blob_path (baseDir collection id : String) : String :=
  get_collection_dir baseDir collection ++ "/blobs/" ++ id

/-- `storage.rs` `is_encrypted_collection`. -/
def is_encrypted_collection (collection : String) : Bool :=
  ["credentials", "pqc_keys", "sessions", "audit_log", "threat_events",
    "access_control"].contains collection

/-- `storage.rs` `is_sensitive_field` (the fixed sensitive-field table). -/
def is_sensitive_field (collection fieldName : String) : Bool :=
  match collection with
  | "credentials" => fieldName == "hash" || fieldName == "salt"
  | "pqc_keys" =>
    fieldName == "kyber_private_key" || fieldName == "dilithium_private_key"
  | "sessions" => fieldName == "token_hash"
  | "audit_log" => fieldName == "details"
  | "threat_events" => fieldName == "indicators"
  | "access_control" => fieldName == "permissions"
  | _ => false

/-- The loop of `storage.rs` `encrypt_payload`: build a fresh map; sensitive
fields are replaced by the encrypted string plus a `<name>_encrypted: true`
sentinel, others pass through verbatim. -/
def encryptPayloadGo (e : EncOps) (s : SerdeOps) (collection keyId : String) :
    List (String × Json) → List (String × Json) →
    Except String (List (String × Json))
  | [], acc => Except.ok acc
  | (key, value) :: rest, acc =>
    if is_sensitive_field collection key then
      match e.encryptData (s.toBytes value) keyId with
      | Except.error er => Except.error er
      | Except.ok encValue =>
        encryptPayloadGo e s collection keyId rest
          (HMap.insert (HMap.insert acc key (Json.str encValue))
            (key ++ "_encrypted") (Json.bool true))
    else encryptPayloadGo e s collection keyId rest (HMap.insert acc key value)

/-- `storage.rs` `encrypt_payload`. -/
def encrypt_payload (e : EncOps) (s : SerdeOps)
    (collection : String) (payload : List (String × Json)) (keyId : String) :
    Except String Json :=
  match encryptPayloadGo e s collection keyId payload [] with
  | Except.error er => Except.error er
  | Except.ok m => Except.ok (Json.obj m)

/-- `storage.rs` `encrypt_document`: requires a master key; when the
document's `payload` is a JSON object, encrypts it and sets the
`encrypted` / `encryption_key_id` flags. -/
def encrypt_document (e : EncOps) (s : SerdeOps) (collection : String)
    (doc : List (String × Json)) : Except String (List (String × Json)) :=
  match e.masterKeyId with
  | none => Except.error "no master key set for encryption"
  | some keyId =>
    match List.lookup "payload" doc with
    | some (Json.obj payload) =>
      match encrypt_payload e s collection payload keyId with
      | Except.error er => Except.error er
      | Except.ok encPayload =>
        Except.ok (HMap.insert
          (HMap.insert (HMap.insert doc "payload" encPayload)
            "encrypted" (Json.bool true))
          "encryption_key_id" (Json.str keyId))
    | _ => Except.ok doc

/-- One iteration of the `storage.rs` `decrypt_payload` loop, returning the
updated output map: a field whose name ends in `_encrypted` is skipped; a
field with a `<name>_encrypted: true` sentinel and a string value is
decrypted (and silently dropped when the sentinel is set but the value is not
a string); all other fields pass through verbatim. -/
def decryptFieldAcc (e : EncOps) (s : SerdeOps)
    (payload acc : List (String × Json)) (key : String) (value : Json) :
    Except String (List (String × Json)) :=
  if endsWithS key "_encrypted" then Except.ok acc
  else
    match List.lookup (key ++ "_encrypted") payload with
    | some (Json.bool true) =>
      match value with
      | Json.str encValue =>
        match e.decryptData encValue with
        | Except.error er => Except.error er
        | Except.ok bytes =>
          match s.ofBytes bytes with
          | Except.error er => Except.error er
          | Except.ok decValue => Except.ok (HMap.insert acc key decValue)
      | _ => Except.ok acc
    | _ => Except.ok (HMap.insert acc key value)

/-- The loop of `storage.rs` `decrypt_payload`: fold `decryptFieldAcc` over
the payload entries, propagating the first error. -/
def decryptPayloadGo (e : EncOps) (s : SerdeOps)
    (payload : List (String × Json)) :
    List (String × Json) → List (String × Json) →
    Except String (List (String × Json))
  | [], acc => Except.ok acc
  | (key, value) :: rest, acc =>
    match decryptFieldAcc e s payload acc key value with
    | Except.error er => Except.error er
    | Except.ok acc2 => decryptPayloadGo e s payload rest acc2

/-- `storage.rs` `decrypt_document`: decrypt an object-valued payload and
remove the `encrypted` / `encryption_key_id` flags. -/
def decrypt_document (e : EncOps) (s : SerdeOps)
    (doc : List (String × Json)) : Except String (List (String × Json)) :=
  match
    (match List.lookup "payload" doc with
      | some (Json.obj payload) =>
        match decryptPayloadGo e s payload payload [] with
        | Except.error er => Except.error er
        | Except.ok m => Except.ok (HMap.insert doc "payload" (Json.obj m))
      | _ => Except.ok doc) with
  | Except.error er => Except.error er
  | Except.ok doc2 =>
    Except.ok (HMap.remove (HMap.remove doc2 "encrypted") "encryption_key_id")

/-- `storage.rs` `insert`: validate the `id` field (present and a string),
externalize a MEMORY blob, encrypt sensitive collections, write the file. -/
def insert (e : EncOps) (s : SerdeOps) (baseDir collection : String)
    (doc : List (String × Json)) (fs : FS) : Except String Unit × FS :=
  match List.lookup "id" doc with
  | some (Json.str id) =>
    let path := get_doc_path baseDir collection id
    -- `deep_copy_doc` round-trips through serde and is the identity on values
    let docCopy := doc
    let blobStep : List (String × Json) × FS :=
      match List.lookup "entryType" docCopy with
      | some (Json.str entryType) =>
        if entryType == "MEMORY" then
          match List.lookup "payload" docCopy with
          | some (Json.obj payload) =>
            match List.lookup "blob" payload with
            | some blob =>
              let blobPath := blob_path baseDir collection id
              let payload2 := HMap.insert (HMap.remove payload "blob")
                "blobRef" (Json.str blobPath)
              (HMap.insert docCopy "payload" (Json.obj payload2),
                { fs with blobs := HMap.insert fs.blobs blobPath blob })
            | none => (docCopy, fs)
          | _ => (docCopy, fs)
        else (docCopy, fs)
      | _ => (docCopy, fs)
    let finalDoc := blobStep.1
    let fs2 := blobStep.2
    if is_encrypted_collection collection then
      match encrypt_document e s collection finalDoc with
      | Except.error er => (Except.error er, fs2)
      | Except.ok encDoc =>
        (Except.ok (),
          { fs2 with files := HMap.insert fs2.files path (Json.obj encDoc) })
    else
      (Except.ok (),
        { fs2 with files := HMap.insert fs2.files path (Json.obj finalDoc) })
  | _ => (Except.error "document must have an 'id' field", fs)

/-- The MEMORY blob re-inlining step of `storage.rs` `find`: load the blob
behind `payload.blobRef`, inline it as `payload.blob`, drop `blobRef`; a
missing blob file is ignored (`if let Ok(blob) = ...`). -/
def findBlobStep (fs : FS) (doc1 : List (String × Json)) :
    List (String × Json) :=
  match List.lookup "entryType" doc1 with
  | some (Json.str entryType) =>
    if entryType == "MEMORY" then
      match List.lookup "payload" doc1 with
      | some (Json.obj payload) =>
        match List.lookup "blobRef" payload with
        | some (Json.str blobRef) =>
          match List.lookup blobRef fs.blobs with
          | some blob =>
            HMap.insert doc1 "payload"
              (Json.obj (HMap.remove (HMap.insert payload "blob" blob)
                "blobRef"))
          | none => doc1
        | _ => doc1
      | _ => doc1
    else doc1
  | _ => doc1

/-- `storage.rs` `find`: read and parse the file (absent file yields `None`,
non-object contents fail deserialization), decrypt when the top-level
`encrypted` flag is the boolean `true`, then re-inline a MEMORY blob. -/
def find (e : EncOps) (s : SerdeOps) (baseDir collection id : String)
    (fs : FS) : Except String (Option (List (String × Json))) :=
  let path := get_doc_path baseDir collection id
  match List.lookup path fs.files with
  | none => Except.ok none
  | some (Json.obj doc0) =>
    match
      (match List.lookup "encrypted" doc0 with
        | some (Json.bool true) => decrypt_document e s doc0
        | _ => Except.ok doc0) with
    | Except.error er => Except.error er
    | Except.ok doc1 => Except.ok (some (findBlobStep fs doc1))
  | some _ => Except.error "invalid document"

end FileStorage

/-- serde name of an `EntryType` unit variant (the derived `Serialize` of
`types.rs` writes the Rust variant name, not the `Display` form). -/
def entryTypeName : EntryType → String
  | EntryType.Memory => "Memory"
  | EntryType.Auth => "Auth"

/-- serde serialization of a `DistributedDocument` to a JSON map
(`serde_json::to_value` then decoding to `HashMap<String, Value>` in
`collection.rs` `insert`): Rust field names; `payload` / `stage` skipped when
`None`, `deleted` skipped when `false`; `VectorClock` as a JSON map. -/
def docToMap (d : DistributedDocument) : List (String × Json) :=
  [("id", Json.str d.id),
    ("entry_type", Json.str (entryTypeName d.entry_type))]
  ++ (match d.payload with
      | some p => [("payload", Json.obj p)]
      | none => [])
  ++ [("vector", Json.obj (d.vector.map (fun kv => (kv.1, Json.num kv.2)))),
      ("timestamp", Json.num d.timestamp),
      ("peer_id", Json.str d.peer_id)]
  ++ (match d.stage with
      | some st => [("stage", Json.str st)]
      | none => [])
  ++ (if d.deleted then [("deleted", Json.bool true)] else [])

namespace DistributedCollection

/-- `collection.rs` `DistributedCollection::insert` for a collection that is
not attached to a network (`network_id` is `None` as left by `new`, so the
broadcast branch is not taken; the claims evaluated here never attach).
Builds the `DistributedDocument` (id from the document's `id` string or `""`,
entry type defaulted to `Memory`, the whole input map as payload, a FRESH
vector incremented once at the local peer, the current timestamp `now`),
serializes it and stores it through `FileStorage::insert`. -/
def insert (e : EncOps) (s : SerdeOps) (baseDir name peerId : String)
    (now : Int) (doc : List (String × Json)) (fs : FS) :
    Except String (List (String × Json)) × FS :=
  let ddoc : DistributedDocument :=
    { id := match List.lookup "id" doc with
            | some (Json.str sid) => sid
            | _ => ""
      entry_type := EntryType.Memory
      payload := some doc
      vector := VectorClock.increment VectorClock.new peerId
      timestamp := now
      peer_id := peerId
      stage := none
      deleted := false }
  match FileStorage.insert e s baseDir name (docToMap ddoc) fs with
  | (Except.error er, fs2) => (Except.error er, fs2)
  | (Except.ok _, fs2) => (Except.ok doc, fs2)

/-- `collection.rs` `DistributedCollection::update`: read the stored document
map, shallow-merge the patch over its TOP-LEVEL fields, re-insert through
storage; returns `1` when the document existed and `0` otherwise. -/
def update (e : EncOps) (s : SerdeOps) (baseDir name id : String)
    (upd : List (String × Json)) (fs : FS) : Except String Int × FS :=
  match FileStorage.find e s baseDir name id fs with
  | Except.error er => (Except.error er, fs)
  | Except.ok none => (Except.ok 0, fs)
  | Except.ok (some doc) =>
    let doc2 := upd.foldl
      (fun d (kv : String × Json) => HMap.insert d kv.1 kv.2) doc
    match FileStorage.insert e s baseDir name doc2 fs with
    | (Except.error er, fs2) => (Except.error er, fs2)
    | (Except.ok _, fs2) => (Except.ok 1, fs2)

end DistributedCollection

/-- `types.rs` `EncryptionConfig`. -/
structure EncryptionConfig where
  enabled : Bool
  shared_secret : String
deriving DecidableEq

/-- `types.rs` `ReplicationConfig`. -/
structure ReplicationConfig where
  factor : Int
  strategy : String
deriving DecidableEq

/-- `types.rs` `DiscoveryConfig`. -/
structure DiscoveryConfig where
  mdns : Bool
  bootstrap : Bool
deriving DecidableEq

/-- `types.rs` `NetworkConfig`. -/
structure NetworkConfig where
  network_id : String
  name : String
  collections : List (String × Bool)
  bootstrap_peers : List String
  default_posting_network : String
  auto_post_classifications : List EntryType
  private_by_default : Bool
  encryption : EncryptionConfig
  replication : ReplicationConfig
  discovery : DiscoveryConfig
deriving DecidableEq

/-- `types.rs` `NetworkStats` (`chrono::Duration` as integer
milliseconds). -/
structure NetworkStats where
  network_id : String
  connected_peers : Int
  total_peers : Int
  collections_shared : Int
  operations_sent : Int
  operations_received : Int
  bytes_transferred : Int
  average_latency : Int
deriving DecidableEq

/-- The state of `network.rs` `NetworkManager` relevant to network
registration: the peer id, the `networks` and `stats` maps and the
`initialized` flag (peers, connections, handlers and the TCP listener play no
part in `create_network` beyond the bind performed by `initialize`). -/
structure NetworkManagerState where
  peer_id : String
  networks : List (String × NetworkConfig)
  stats : List (String × NetworkStats)
  initialized : Bool

namespace NetworkManager

/-- `network.rs` `create_network`: first `initialize()` (modelled: the
`127.0.0.1:0` TCP bind succeeds and the flag is set; idempotent). A known
`network_id` returns immediately; otherwise the configuration is stored with
`cfg.collections = HashMap::new()` (the supplied collections are discarded)
and the network's stats are zero-initialized. Returns the network id. -/
def create_network (st : NetworkManagerState) (cfg : NetworkConfig) :
    String × NetworkManagerState :=
  let st1 := { st with initialized := true }
  if (List.lookup cfg.network_id st1.networks).isSome then
    (cfg.network_id, st1)
  else
    let cfg2 := { cfg with collections := [] }
    let st2 := { st1 with
      networks := HMap.insert st1.networks cfg2.network_id cfg2 }
    let st3 := { st2 with
      stats := HMap.insert st2.stats cfg2.network_id
        (NetworkStats.mk cfg2.network_id 0 0 0 0 0 0 0) }
    (cfg2.network_id, st3)

end NetworkManager

/-- `pqc.rs` `PQCKeyPair` (timestamps as epoch integers, key material as byte
lists). -/
structure PQCKeyPair where
  id : String
  name : String
  purpose : String
  algorithm : String
  created_at : Int
  expires_at : Option Int
  status : String
  public_key : List Nat
  private_key : List Nat

namespace PQCKeyPair

/-- `pqc.rs` `is_expired`: expired iff `expires_at` is set and now is
strictly past it. -/
def is_expired (kp : PQCKeyPair) (now : Int) : Bool :=
  match kp.expires_at with
  | some e => now > e
  | none => false

/-- `pqc.rs` `is_active`: status `active` and not expired. -/
def is_active (kp : PQCKeyPair) (now : Int) : Bool :=
  kp.status == "active" && !(kp.is_expired now)

/-- `pqc.rs` `verify`: the placeholder signature check returns `true`
unconditionally. -/
def verify (_kp : PQCKeyPair) (_message _signature : List Nat) : Bool := true

end PQCKeyPair

/-- The AES-256-GCM AEAD of the external `aes_gcm` crate, abstract:
`enc key nonce plaintext` and `dec key nonce ciphertext` (authenticated
decryption, `none` on failure). -/
structure AeadCipher where
  enc : List Nat → List Nat → List Nat → List Nat
  dec : List Nat → List Nat → List Nat → Option (List Nat)

/-- `pqc.rs` `aes_encrypt`: derive a 32-byte key (the abstract `sha` models
SHA-256, used only when the material is not exactly 32 bytes), encrypt under
the random 12-byte nonce (made an explicit parameter), prepend the nonce. -/
def aes_encrypt (c : AeadCipher) (sha : List Nat → List Nat)
    (nonce key plaintext : List Nat) : List Nat :=
  let aesKey := if key.length == 32 then key else sha key
  nonce ++ c.enc aesKey nonce plaintext

/-- `pqc.rs` `aes_decrypt`: same key derivation; rejects ciphertext shorter
than the 12-byte nonce; splits off the nonce and decrypts. -/
def aes_decrypt (c : AeadCipher) (sha : List Nat → List Nat)
    (key ciphertext : List Nat) : Except String (List Nat) :=
  let aesKey := if key.length == 32 then key else sha key
  if ciphertext.length < 12 then Except.error "ciphertext too short"
  else
    match c.dec aesKey (ciphertext.take 12) (ciphertext.drop 12) with
    | some plaintext => Except.ok plaintext
    | none => Except.error "decryption failed"

/-- The encrypted envelope built by `EncryptionManager::encrypt_data`: in the
source a base64 string decoding to
`{ payload: { key_id, algorithm, ciphertext }, signature }`; base64 and JSON
serialization are bijective on well-formed envelopes and the transport is
modelled as the identity on this structured form. -/
structure Envelope where
  key_id : String
  algorithm : String
  ciphertext : List Nat
  signature : List Nat

/-- `pqc.rs` `EncryptionManager` state: an optional master key pair and the
key cache. -/
structure EncryptionManager where
  master_key : Option PQCKeyPair
  key_cache : List (String × PQCKeyPair)

namespace EncryptionManager

/-- The key-resolution block shared by `encrypt_data` and `decrypt_data`:
the cache first, then the master key when its id matches, otherwise the
`key ... not found in cache` error. -/
def resolveKey (mgr : EncryptionManager) (keyId : String) :
    Except String PQCKeyPair :=
  match List.lookup keyId mgr.key_cache with
  | some kp => Except.ok kp
  | none =>
    match mgr.master_key with
    | some master =>
      if master.id == keyId then Except.ok master
      else Except.error ("key " ++ keyId ++ " not found in cache")
    | none => Except.error ("key " ++ keyId ++ " not found in cache")

/-- `pqc.rs` `encrypt_data`: resolve the key id, reject an inactive key,
AES-encrypt the plaintext under the key pair's PUBLIC key
(`PQCKeyPair::encrypt` calls `aes_encrypt(&self.public_key, ...)`), and wrap
the result with the key id, the algorithm tag and the signature (random
bytes in the source, the `sig` parameter here). -/
def encrypt_data (c : AeadCipher) (sha : List Nat → List Nat)
    (nonce sig : List Nat) (mgr : EncryptionManager) (now : Int)
    (plaintext : List Nat) (keyId : String) : Except String Envelope :=
  match resolveKey mgr keyId with
  | Except.error er => Except.error er
  | Except.ok kp =>
    if !(kp.is_active now) then
      Except.error ("key " ++ keyId ++ " is not active")
    else
      Except.ok
        { key_id := keyId
          algorithm := "AES-256-GCM"
          ciphertext := aes_encrypt c sha nonce kp.public_key plaintext
          signature := sig }

/-- `pqc.rs` `decrypt_data`: unwrap the envelope, resolve the carried key id,
reject an inactive key, verify the signature (the placeholder `verify`
returns `true` unconditionally, so this never rejects), and AES-decrypt under
the key pair's PRIVATE key (`PQCKeyPair::decrypt` calls
`aes_decrypt(&self.private_key, ...)`). -/
def decrypt_data (c : AeadCipher) (sha : List Nat → List Nat)
    (mgr : EncryptionManager) (now : Int) (env : Envelope) :
    Except String (List Nat) :=
  match resolveKey mgr env.key_id with
  | Except.error er => Except.error er
  | Except.ok kp =>
    if !(kp.is_active now) then
      Except.error ("key " ++ env.key_id ++ " is not active")
    else if !(kp.verify [] env.signature) then
      Except.error "signature verification failed"
    else aes_decrypt c sha kp.private_key env.ciphertext

end EncryptionManager

/-- A concrete AEAD instantiating the abstract cipher for closed
evaluations: encryption appends the key to the plaintext; authenticated
decryption succeeds exactly when the trailing 32 bytes equal the key. Any
cipher in which decryption under a wrong key fails authentication behaves
the same on the inputs below. -/
def tagCipher : AeadCipher where
  enc := fun key _nonce plaintext => plaintext ++ key
  dec := fun key _nonce ct =>
    if decide (ct.length ≥ 32) && ct.drop (ct.length - 32) == key then
      some (ct.take (ct.length - 32))
    else none

/-- Stand-in for the SHA-256 key derivation; never invoked in the closed
evaluations below because their key material is exactly 32 bytes. -/
def shaId : List Nat → List Nat := fun bytes => bytes

/-- The master key pair of the C1 evaluation: active, no expiry, and with
`public_key` (32 zero bytes) different from `private_key` (32 one bytes), as
for any pair produced by `PQCKeyPair::generate`, which draws the two
independently at random. -/
def kpC1 : PQCKeyPair :=
  { id := "k1", name := "master", purpose := "encryption"
    algorithm := "Mock-PQC", created_at := 0, expires_at := none
    status := "active"
    public_key := List.replicate 32 0
    private_key := List.replicate 32 1 }

/-- An encryption manager with `kpC1` installed via `set_master_key` and an
empty key cache. -/
def mgrC1 : EncryptionManager := { master_key := some kpC1, key_cache := [] }

/-- Trivial instantiation of the encryption-manager operations for
evaluations on non-sensitive collections and on documents without
sentinel-flagged string fields (the operations are never invoked there). -/
def e0 : EncOps :=
  { masterKeyId := none
    encryptData := fun _ _ => Except.error "unused"
    decryptData := fun _ => Except.error "unused" }

/-- Trivial instantiation of the payload-value serde boundary, never invoked
in the closed evaluations below. -/
def s0 : SerdeOps :=
  { toBytes := fun _ => []
    ofBytes := fun _ => Except.error "unused" }

/-- The empty file system. -/
def fs0 : FS := { files := [], blobs := [] }

/-- The network configuration used by the C10 witness (carries a non-empty
collections map so that the discard is visible). -/
def cfgC10 : NetworkConfig :=
  { network_id := "n1", name := "Net", collections := [("mem", true)]
    bootstrap_peers := ["127.0.0.1:4001"], default_posting_network := "kg"
    auto_post_classifications := [EntryType.Memory]
    private_by_default := true
    encryption := { enabled := true, shared_secret := "s" }
    replication := { factor := 2, strategy := "full" }
    discovery := { mdns := true, bootstrap := false } }

/-- A fresh network manager state for the C10 witness. -/
def nmStC10 : NetworkManagerState :=
  { peer_id := "p", networks := [], stats := [], initialized := false }

namespace HMap

theorem lookup_mem {β : Type} {l : List (String × β)} {k : String} {b : β}
    (h : List.lookup k l = some b) : (k, b) ∈ l := by
  induction l with
  | nil => simp [List.lookup] at h
  | cons p t ih =>
    rw [show p = (p.1, p.2) from rfl, List.lookup_cons] at h
    by_cases hk : k = p.1
    · simp only [hk, beq_self_eq_true] at h
      simp only [Option.some.injEq] at h
      subst hk; subst h
      exact List.mem_cons_self _ _
    · have hb : (k == p.1) = false := by
        simpa [beq_iff_eq] using hk
      simp only [hb] at h
      exact List.mem_cons_of_mem _ (ih h)

theorem lookup_none_of_not_mem_keys {β : Type} {l : List (String × β)}
    {k : String} (h : k ∉ keys l) : List.lookup k l = none := by
  induction l with
  | nil => rfl
  | cons p t ih =>
    have hk : k ≠ p.1 := fun hkp => h (by simp [keys, hkp])
    rw [show p = (p.1, p.2) from rfl, List.lookup_cons]
    have hb : (k == p.1) = false := by simpa [beq_iff_eq] using hk
    simp only [hb]
    exact ih (fun hm => h (by simp [keys] at hm ⊢; exact Or.inr hm))

theorem mem_keys_of_lookup_isSome {β : Type} {l : List (String × β)}
    {k : String} (h : (List.lookup k l).isSome) : k ∈ keys l := by
  by_contra hk
  rw [lookup_none_of_not_mem_keys hk] at h
  simp at h

theorem lookup_isSome_of_mem_keys {β : Type} {l : List (String × β)}
    {k : String} (h : k ∈ keys l) : (List.lookup k l).isSome = true := by
  induction l with
  | nil => simp [keys] at h
  | cons p t ih =>
    rw [show p = (p.1, p.2) from rfl, List.lookup_cons]
    by_cases hk : k = p.1
    · have hb : (k == p.1) = true := by simp [beq_iff_eq, hk]
      simp [hb]
    · have hb : (k == p.1) = false := by simpa [beq_iff_eq] using hk
      simp only [hb]
      apply ih
      have : k = p.1 ∨ k ∈ keys t := by simpa [keys] using h
      rcases this with h1 | h1
      · exact absurd h1 hk
      · exact h1

theorem getD_eq_zero_of_not_mem_keys {l : List (String × Int)} {k : String}
    (h : k ∉ keys l) : getD l k = 0 := by
  rw [getD, lookup_none_of_not_mem_keys h]; rfl

end HMap

namespace VectorClock

theorem hasGreaterB_iff (v w : VectorClock) :
    hasGreaterB v w = true ↔ HasG v w := by
  constructor
  · intro h
    rcases List.any_eq_true.mp h with ⟨k, _, hk⟩
    exact ⟨k, of_decide_eq_true hk⟩
  · rintro ⟨k, hk⟩
    apply List.any_eq_true.mpr
    refine ⟨k, ?_, decide_eq_true hk⟩
    by_cases hv : (List.lookup k v).isSome
    · exact List.mem_append_left _ (HMap.mem_keys_of_lookup_isSome hv)
    · have h0 : HMap.getD v k = 0 := by
        rw [HMap.getD, Option.not_isSome_iff_eq_none.mp hv]; rfl
      have hw : HMap.getD w k < 0 := by omega
      have hsw : (List.lookup k w).isSome := by
        by_contra hn
        rw [HMap.getD, Option.not_isSome_iff_eq_none.mp hn] at hw
        simp at hw
      exact List.mem_append_right _ (HMap.mem_keys_of_lookup_isSome hsw)

theorem hasLessB_iff (v w : VectorClock) :
    hasLessB v w = true ↔ HasG w v := by
  constructor
  · intro h
    rcases List.any_eq_true.mp h with ⟨k, _, hk⟩
    exact ⟨k, of_decide_eq_true hk⟩
  · rintro ⟨k, hk⟩
    apply List.any_eq_true.mpr
    refine ⟨k, ?_, decide_eq_true hk⟩
    by_cases hv : (List.lookup k v).isSome
    · exact List.mem_append_left _ (HMap.mem_keys_of_lookup_isSome hv)
    · have h0 : HMap.getD v k = 0 := by
        rw [HMap.getD, Option.not_isSome_iff_eq_none.mp hv]; rfl
      have hw : 0 < HMap.getD w k := by omega
      have hsw : (List.lookup k w).isSome := by
        by_contra hn
        rw [HMap.getD, Option.not_isSome_iff_eq_none.mp hn] at hw
        simp at hw
      exact List.mem_append_right _ (HMap.mem_keys_of_lookup_isSome hsw)

theorem compare_eq_After_iff (v w : VectorClock) :
    compare v w = ComparisonResult.After ↔ HasG v w ∧ ¬ HasG w v := by
  rw [compare]
  rcases hG : hasGreaterB v w with _ | _ <;> rcases hL : hasLessB v w with _ | _ <;>
    simp only [← hasGreaterB_iff v w, ← hasLessB_iff v w, hG, hL] <;> simp

theorem compare_eq_Before_iff (v w : VectorClock) :
    compare v w = ComparisonResult.Before ↔ ¬ HasG v w ∧ HasG w v := by
  rw [compare]
  rcases hG : hasGreaterB v w with _ | _ <;> rcases hL : hasLessB v w with _ | _ <;>
    simp only [← hasGreaterB_iff v w, ← hasLessB_iff v w, hG, hL] <;> simp

theorem compare_eq_Equal_iff (v w : VectorClock) :
    compare v w = ComparisonResult.Equal ↔ ¬ HasG v w ∧ ¬ HasG w v := by
  rw [compare]
  rcases hG : hasGreaterB v w with _ | _ <;> rcases hL : hasLessB v w with _ | _ <;>
    simp only [← hasGreaterB_iff v w, ← hasLessB_iff v w, hG, hL] <;> simp

theorem compare_eq_Concurrent_iff (v w : VectorClock) :
    compare v w = ComparisonResult.Concurrent ↔ HasG v w ∧ HasG w v := by
  rw [compare]
  rcases hG : hasGreaterB v w with _ | _ <;> rcases hL : hasLessB v w with _ | _ <;>
    simp only [← hasGreaterB_iff v w, ← hasLessB_iff v w, hG, hL] <;> simp

end VectorClock


namespace HMap

theorem lookup_map_update {β : Type} (m : List (String × β)) (f : β → β)
    (k' k : String) :
    List.lookup k (m.map fun p => if p.1 == k' then (p.1, f p.2) else p) =
      if k = k' then (List.lookup k' m).map f else List.lookup k m := by
  induction m with
  | nil => by_cases h : k = k' <;> simp [h]
  | cons q t ih =>
    rcases q with ⟨a, b⟩
    simp only [List.map_cons]
    by_cases ha : a = k'
    · subst ha
      simp only [beq_self_eq_true, if_pos]
      by_cases hk : k = a
      · subst hk
        simp [List.lookup_cons]
      · have hb : (k == a) = false := by simpa [beq_iff_eq] using hk
        simp only [List.lookup_cons, hb, if_neg hk]
        rw [ih, if_neg hk]
    · have hba : (a == k') = false := by simpa [beq_iff_eq] using ha
      simp only [hba, Bool.false_eq_true, if_false]
      by_cases hk : k = a
      · subst hk
        have hkk : k ≠ k' := fun h => ha h
        have hb : (k == k) = true := by simp
        simp [List.lookup_cons, hb, if_neg hkk]
      · have hb : (k == a) = false := by simpa [beq_iff_eq] using hk
        have hb2 : (k' == a) = false := by
          simpa [beq_iff_eq] using fun h => ha h.symm
        simp only [List.lookup_cons, hb, hb2]
        exact ih

theorem lookup_append_single {β : Type} (m : List (String × β))
    (k' k : String) (y : β) :
    List.lookup k (m ++ [(k', y)]) =
      match List.lookup k m with
      | some x => some x
      | none => if k = k' then some y else none := by
  induction m with
  | nil =>
    by_cases h : k = k'
    · simp [List.lookup_cons, beq_iff_eq, h]
    · have hb : (k == k') = false := by simpa [beq_iff_eq] using h
      simp [List.lookup_cons, hb, h]
  | cons q t ih =>
    rcases q with ⟨a, b⟩
    by_cases hk : k = a
    · subst hk
      simp [List.lookup_cons]
    · have hb : (k == a) = false := by simpa [beq_iff_eq] using hk
      simp only [List.cons_append, List.lookup_cons, hb]
      exact ih

theorem keys_map_update {β : Type} (m : List (String × β)) (f : β → β)
    (k' : String) :
    keys (m.map fun p => if p.1 == k' then (p.1, f p.2) else p) = keys m := by
  simp only [keys, List.map_map]
  congr 1
  funext p
  by_cases h : p.1 = k' <;> simp [h]

theorem keys_append_single {β : Type} (m : List (String × β)) (k' : String)
    (y : β) : keys (m ++ [(k', y)]) = keys m ++ [k'] := by
  simp [keys]

end HMap

namespace HMap

theorem lookup_map_set {β : Type} (m : List (String × β)) (x : β)
    (k' k : String) :
    List.lookup k (m.map fun p => if p.1 == k' then (p.1, x) else p) =
      if k = k' then (List.lookup k' m).map (fun _ => x)
      else List.lookup k m :=
  lookup_map_update m (fun _ => x) k' k

theorem keys_map_set {β : Type} (m : List (String × β)) (x : β) (k' : String) :
    keys (m.map fun p => if p.1 == k' then (p.1, x) else p) = keys m :=
  keys_map_update m (fun _ => x) k'

end HMap

namespace VectorClock

theorem lookup_mergeStep (m : VectorClock) (kv : String × Int) (k : String) :
    List.lookup k (mergeStep m kv) =
      if k = kv.1 then some (max (HMap.getD m kv.1) kv.2)
      else List.lookup k m := by
  rcases hm : List.lookup kv.1 m with _ | x
  · have hms : (List.lookup kv.1 m).isSome = false := by rw [hm]; rfl
    have hg : HMap.getD m kv.1 = 0 := by rw [HMap.getD, hm]; rfl
    by_cases hc : kv.2 > 0
    · simp only [mergeStep, hg, hms, Bool.false_eq_true, if_false, hc, if_true]
      rw [HMap.lookup_map_set]
      by_cases hk : k = kv.1
      · subst hk
        rw [if_pos rfl, if_pos rfl, HMap.lookup_append_single, hm]
        simp only [if_pos rfl, Option.map_some']
        rw [max_eq_right (by omega : (0 : Int) ≤ kv.2)]
        simp
      · rw [if_neg hk, if_neg hk, HMap.lookup_append_single]
        rcases hy : List.lookup k m with _ | y <;> simp [hk]
    · simp only [mergeStep, hg, hms, Bool.false_eq_true, if_false, hc, if_true]
      rw [HMap.lookup_append_single]
      by_cases hk : k = kv.1
      · subst hk
        rw [hm, if_pos rfl, if_pos rfl]
        exact congrArg some (max_eq_left (by omega)).symm
      · rw [if_neg hk, if_neg hk]
        rcases hy : List.lookup k m with _ | y <;> rfl
  · have hms : (List.lookup kv.1 m).isSome = true := by rw [hm]; rfl
    have hg : HMap.getD m kv.1 = x := by rw [HMap.getD, hm]; rfl
    by_cases hc : kv.2 > x
    · simp only [mergeStep, hg, hms, if_true, hc]
      rw [HMap.lookup_map_set]
      by_cases hk : k = kv.1
      · subst hk
        rw [if_pos rfl, if_pos rfl, hm]
        simp only [Option.map_some']
        exact congrArg some (max_eq_right (by omega)).symm
      · rw [if_neg hk, if_neg hk]
    · simp only [mergeStep, hg, hms, if_true, hc, if_false]
      by_cases hk : k = kv.1
      · subst hk
        rw [if_pos rfl, hm]
        exact congrArg some (max_eq_left (by omega)).symm
      · rw [if_neg hk]

theorem keys_mergeStep (m : VectorClock) (kv : String × Int) :
    HMap.keys (mergeStep m kv) =
      if (List.lookup kv.1 m).isSome then HMap.keys m
      else HMap.keys m ++ [kv.1] := by
  rcases hm : (List.lookup kv.1 m).isSome with _ | _
  · simp only [mergeStep, hm, Bool.false_eq_true, if_false]
    by_cases hc : kv.2 > HMap.getD m kv.1
    · simp only [hc, if_true]
      rw [HMap.keys_map_set, HMap.keys_append_single]
    · simp only [hc, if_false]
      rw [HMap.keys_append_single]
  · simp only [mergeStep, hm, if_true]
    by_cases hc : kv.2 > HMap.getD m kv.1
    · simp only [hc, if_true]
      rw [HMap.keys_map_set]
    · simp only [hc, if_false]

theorem nodup_keys_mergeStep (m : VectorClock) (kv : String × Int)
    (h : (HMap.keys m).Nodup) : (HMap.keys (mergeStep m kv)).Nodup := by
  rw [keys_mergeStep]
  rcases hm : (List.lookup kv.1 m).isSome with _ | _
  · simp only [Bool.false_eq_true, if_false]
    have hnm : kv.1 ∉ HMap.keys m := by
      intro hmem
      rw [HMap.lookup_isSome_of_mem_keys hmem] at hm
      exact Bool.noConfusion hm
    refine List.Nodup.append h (List.nodup_singleton _) ?_
    intro a ha hb
    rw [List.mem_singleton.mp hb] at ha
    exact hnm ha
  · simp only [if_true]
    exact h

theorem nodup_keys_merge (v w : VectorClock) (h : (HMap.keys v).Nodup) :
    (HMap.keys (merge v w)).Nodup := by
  induction w generalizing v with
  | nil => exact h
  | cons kv t ih => exact ih (mergeStep v kv) (nodup_keys_mergeStep v kv h)

theorem lookup_merge (v w : VectorClock) (hw : (HMap.keys w).Nodup)
    (k : String) :
    List.lookup k (merge v w) =
      match List.lookup k w with
      | some x => some (max (HMap.getD v k) x)
      | none => List.lookup k v := by
  induction w generalizing v with
  | nil => rfl
  | cons kv t ih =>
    rcases kv with ⟨a, b⟩
    have hw2 : (a :: HMap.keys t).Nodup := hw
    have hat : a ∉ HMap.keys t := (List.nodup_cons.mp hw2).1
    have hts : (HMap.keys t).Nodup := (List.nodup_cons.mp hw2).2
    have hmt : merge v ((a, b) :: t) = merge (mergeStep v (a, b)) t := rfl
    rw [hmt, ih _ hts]
    by_cases hk : k = a
    · subst hk
      rw [HMap.lookup_none_of_not_mem_keys hat]
      simp only [List.lookup_cons, beq_self_eq_true]
      rw [lookup_mergeStep]
      simp
    · have hb : (k == a) = false := by simpa [beq_iff_eq] using hk
      simp only [List.lookup_cons, hb]
      have hstep : List.lookup k (mergeStep v (a, b)) = List.lookup k v := by
        rw [lookup_mergeStep]
        exact if_neg hk
      have hgd : HMap.getD (mergeStep v (a, b)) k = HMap.getD v k := by
        rw [HMap.getD, hstep, HMap.getD]
      rcases List.lookup k t with _ | y
      · exact hstep
      · rw [hgd]

theorem getD_merge (v w : VectorClock) (hw : (HMap.keys w).Nodup)
    (k : String) :
    HMap.getD (merge v w) k =
      match List.lookup k w with
      | some x => max (HMap.getD v k) x
      | none => HMap.getD v k := by
  rw [HMap.getD, lookup_merge v w hw k]
  rcases List.lookup k w with _ | x
  · rfl
  · rfl

theorem lookup_map_inc (m : List (String × Int)) (k' k : String) :
    List.lookup k (m.map fun p => if p.1 == k' then (p.1, p.2 + 1) else p) =
      if k = k' then (List.lookup k' m).map (fun x => x + 1)
      else List.lookup k m :=
  HMap.lookup_map_update m (fun x => x + 1) k' k

theorem keys_map_inc (m : List (String × Int)) (k' : String) :
    HMap.keys (m.map fun p => if p.1 == k' then (p.1, p.2 + 1) else p) =
      HMap.keys m :=
  HMap.keys_map_update m (fun x => x + 1) k'

theorem lookup_increment (v : VectorClock) (p k : String) :
    List.lookup k (increment v p) =
      if k = p then some (HMap.getD v p + 1) else List.lookup k v := by
  rcases hm : List.lookup p v with _ | x
  · have hms : (List.lookup p v).isSome = false := by rw [hm]; rfl
    rw [increment]
    simp only [hms, Bool.false_eq_true, if_false]
    rw [HMap.lookup_append_single]
    by_cases hk : k = p
    · subst hk
      rw [hm, HMap.getD, hm]
      simp
    · rw [if_neg hk, if_neg hk]
      rcases hy : List.lookup k v with _ | y <;> rfl
  · have hms : (List.lookup p v).isSome = true := by rw [hm]; rfl
    rw [increment]
    simp only [hms, if_true]
    rw [lookup_map_inc]
    by_cases hk : k = p
    · subst hk
      rw [if_pos rfl, if_pos rfl, hm, HMap.getD, hm]
      rfl
    · rw [if_neg hk, if_neg hk]

theorem getD_increment (v : VectorClock) (p k : String) :
    HMap.getD (increment v p) k =
      if k = p then HMap.getD v p + 1 else HMap.getD v k := by
  rw [HMap.getD, lookup_increment]
  by_cases hk : k = p
  · rw [if_pos hk, if_pos hk]
    rfl
  · rw [if_neg hk, if_neg hk, HMap.getD]

theorem nodup_keys_increment (v : VectorClock) (p : String)
    (h : (HMap.keys v).Nodup) : (HMap.keys (increment v p)).Nodup := by
  rw [increment]
  rcases hm : (List.lookup p v).isSome with _ | _
  · simp only [Bool.false_eq_true, if_false]
    rw [HMap.keys_append_single]
    refine List.Nodup.append h (List.nodup_singleton _) ?_
    intro a ha hb
    rw [List.mem_singleton.mp hb] at ha
    rw [HMap.lookup_isSome_of_mem_keys ha] at hm
    exact Bool.noConfusion hm
  · simp only [if_true]
    rw [keys_map_inc]
    exact h

theorem happens_before_iff (v w : VectorClock) :
    happens_before v w = true ↔ ¬ HasG v w := by
  rw [happens_before]
  rcases hc : compare v w with _ | _ | _ | _
  · exact iff_of_true rfl ((compare_eq_Equal_iff v w).mp hc).1
  · exact iff_of_true rfl ((compare_eq_Before_iff v w).mp hc).1
  · exact iff_of_false (by simp)
      (not_not_intro ((compare_eq_After_iff v w).mp hc).1)
  · exact iff_of_false (by simp)
      (not_not_intro ((compare_eq_Concurrent_iff v w).mp hc).1)

theorem getD_nonneg {v : VectorClock} (h : NonNeg v) (k : String) :
    0 ≤ HMap.getD v k := by
  rw [HMap.getD]
  rcases hm : List.lookup k v with _ | x
  · exact le_refl 0
  · exact h _ (HMap.lookup_mem hm)

theorem lookup_nonneg {v : VectorClock} (h : NonNeg v) {k : String} {x : Int}
    (hm : List.lookup k v = some x) : 0 ≤ x :=
  h _ (HMap.lookup_mem hm)


theorem not_hasG_of_pointwise_le {v w : VectorClock}
    (h : ∀ k, HMap.getD v k ≤ HMap.getD w k) : ¬ HasG v w := by
  rintro ⟨k, hk⟩
  exact absurd (h k) (by omega)

theorem hasG_self_false (v : VectorClock) : ¬ HasG v v :=
  not_hasG_of_pointwise_le (fun _ => le_refl _)

theorem hb_merge_left (v w : VectorClock) (hw : (HMap.keys w).Nodup) :
    happens_before v (merge v w) = true := by
  rw [happens_before_iff]
  apply not_hasG_of_pointwise_le
  intro k
  rw [getD_merge v w hw k]
  rcases List.lookup k w with _ | x
  · exact le_refl _
  · exact le_max_left _ _

theorem hb_merge_right (v w : VectorClock) (hw : (HMap.keys w).Nodup)
    (hnv : NonNeg v) : happens_before w (merge v w) = true := by
  rw [happens_before_iff]
  apply not_hasG_of_pointwise_le
  intro k
  rw [getD_merge v w hw k]
  rcases hm : List.lookup k w with _ | x
  · have hw0 : HMap.getD w k = 0 := by rw [HMap.getD, hm]; rfl
    rw [hw0]
    exact getD_nonneg hnv k
  · have hwx : HMap.getD w k = x := by rw [HMap.getD, hm]; rfl
    rw [hwx]
    exact le_max_right _ _

theorem merge_comm_eqv (u v : VectorClock) (hu : (HMap.keys u).Nodup)
    (hv : (HMap.keys v).Nodup) (hnu : NonNeg u) (hnv : NonNeg v) :
    MapEqv (merge u v) (merge v u) := by
  intro k
  rw [lookup_merge u v hv k, lookup_merge v u hu k]
  rcases hx : List.lookup k u with _ | x <;> rcases hy : List.lookup k v with _ | y
  · rfl
  · have hgu : HMap.getD u k = 0 := by rw [HMap.getD, hx]; rfl
    rw [hgu]
    show some (max 0 y) = some y
    rw [max_eq_right (lookup_nonneg hnv hy)]
  · have hgv : HMap.getD v k = 0 := by rw [HMap.getD, hy]; rfl
    rw [hgv]
    show some x = some (max 0 x)
    rw [max_eq_right (lookup_nonneg hnu hx)]
  · have hgu : HMap.getD u k = x := by rw [HMap.getD, hx]; rfl
    have hgv : HMap.getD v k = y := by rw [HMap.getD, hy]; rfl
    rw [hgu, hgv]
    show some (max x y) = some (max y x)
    rw [max_comm]

theorem merge_assoc_eqv (u v w : VectorClock) (hv : (HMap.keys v).Nodup)
    (hw : (HMap.keys w).Nodup) (hnu : NonNeg u) :
    MapEqv (merge (merge u v) w) (merge u (merge v w)) := by
  intro k
  have hvw : (HMap.keys (merge v w)).Nodup := nodup_keys_merge v w hv
  rw [lookup_merge (merge u v) w hw k, lookup_merge u (merge v w) hvw k,
    lookup_merge v w hw k, lookup_merge u v hv k, getD_merge u v hv k]
  rcases hz : List.lookup k w with _ | z <;> rcases hy : List.lookup k v with _ | y
  · rfl
  · rfl
  · have hgv : HMap.getD v k = 0 := by rw [HMap.getD, hy]; rfl
    rw [hgv]
    show some (max (HMap.getD u k) z) = some (max (HMap.getD u k) (max 0 z))
    rcases le_total 0 z with h0 | h0
    · rw [max_eq_right h0]
    · rw [max_eq_left h0,
        max_eq_left (le_trans h0 (getD_nonneg hnu k)),
        max_eq_left (getD_nonneg hnu k)]
  · have hgv : HMap.getD v k = y := by rw [HMap.getD, hy]; rfl
    show some (max (max (HMap.getD u k) y) z) =
      some (max (HMap.getD u k) (max (HMap.getD v k) z))
    rw [hgv, max_assoc]

theorem merge_self_eqv (v : VectorClock) (hv : (HMap.keys v).Nodup) :
    MapEqv (merge v v) v := by
  intro k
  rw [lookup_merge v v hv k]
  rcases hy : List.lookup k v with _ | y
  · rfl
  · have hgv : HMap.getD v k = y := by rw [HMap.getD, hy]; rfl
    show some (max (HMap.getD v k) y) = some y
    rw [hgv, max_self]

theorem merge_increment_eqv (v : VectorClock) (p : String)
    (hv : (HMap.keys v).Nodup) :
    MapEqv (merge v (increment v p)) (increment v p) := by
  intro k
  have hni := nodup_keys_increment v p hv
  rw [lookup_merge v (increment v p) hni k, lookup_increment v p k]
  by_cases hk : k = p
  · subst hk
    rw [if_pos rfl]
    show some (max (HMap.getD v k) (HMap.getD v k + 1)) =
      some (HMap.getD v k + 1)
    rw [max_eq_right (by omega : HMap.getD v k ≤ HMap.getD v k + 1)]
  · rw [if_neg hk]
    rcases hy : List.lookup k v with _ | y
    · rfl
    · have hgv : HMap.getD v k = y := by rw [HMap.getD, hy]; rfl
      show some (max (HMap.getD v k) y) = some y
      rw [hgv, max_self]

theorem hb_increment (v : VectorClock) (p : String) :
    happens_before v (increment v p) = true := by
  rw [happens_before_iff]
  apply not_hasG_of_pointwise_le
  intro k
  rw [getD_increment]
  by_cases hk : k = p
  · subst hk
    rw [if_pos rfl]
    omega
  · rw [if_neg hk]

theorem not_hb_increment (v : VectorClock) (p : String) :
    happens_before (increment v p) v = false := by
  have hg : HasG (increment v p) v := by
    refine ⟨p, ?_⟩
    rw [getD_increment, if_pos rfl]
    omega
  cases hb : happens_before (increment v p) v
  · rfl
  · exact absurd ((happens_before_iff _ _).mp hb) (not_not_intro hg)

end VectorClock

/-- C7: `VectorClock::compare` is reflexive-to-`Equal`; for every pair of
clocks exactly one of `Equal`, `Before`, `After`, `Concurrent` is returned;
`After` and `Before` are dual under swapping the arguments, and `Equal` and
`Concurrent` are self-dual. -/
theorem c7_compare_lattice (v w : VectorClock) :
    VectorClock.compare v v = ComparisonResult.Equal
    ∧ ((VectorClock.compare v w = ComparisonResult.Equal
          ∧ VectorClock.compare v w ≠ ComparisonResult.Before
          ∧ VectorClock.compare v w ≠ ComparisonResult.After
          ∧ VectorClock.compare v w ≠ ComparisonResult.Concurrent)
        ∨ (VectorClock.compare v w ≠ ComparisonResult.Equal
          ∧ VectorClock.compare v w = ComparisonResult.Before
          ∧ VectorClock.compare v w ≠ ComparisonResult.After
          ∧ VectorClock.compare v w ≠ ComparisonResult.Concurrent)
        ∨ (VectorClock.compare v w ≠ ComparisonResult.Equal
          ∧ VectorClock.compare v w ≠ ComparisonResult.Before
          ∧ VectorClock.compare v w = ComparisonResult.After
          ∧ VectorClock.compare v w ≠ ComparisonResult.Concurrent)
        ∨ (VectorClock.compare v w ≠ ComparisonResult.Equal
          ∧ VectorClock.compare v w ≠ ComparisonResult.Before
          ∧ VectorClock.compare v w ≠ ComparisonResult.After
          ∧ VectorClock.compare v w = ComparisonResult.Concurrent))
    ∧ (VectorClock.compare v w = ComparisonResult.After
        ↔ VectorClock.compare w v = ComparisonResult.Before)
    ∧ (VectorClock.compare v w = ComparisonResult.Equal
        ↔ VectorClock.compare w v = ComparisonResult.Equal)
    ∧ (VectorClock.compare v w = ComparisonResult.Concurrent
        ↔ VectorClock.compare w v = ComparisonResult.Concurrent) := by
  refine ⟨?_, ?_, ?_, ?_, ?_⟩
  · exact (VectorClock.compare_eq_Equal_iff v v).mpr
      ⟨VectorClock.hasG_self_false v, VectorClock.hasG_self_false v⟩
  · rcases hc : VectorClock.compare v w with _ | _ | _ | _
    · exact Or.inl ⟨rfl, by simp, by simp, by simp⟩
    · exact Or.inr (Or.inl ⟨by simp, rfl, by simp, by simp⟩)
    · exact Or.inr (Or.inr (Or.inl ⟨by simp, by simp, rfl, by simp⟩))
    · exact Or.inr (Or.inr (Or.inr ⟨by simp, by simp, by simp, rfl⟩))
  · rw [VectorClock.compare_eq_After_iff, VectorClock.compare_eq_Before_iff]
    tauto
  · rw [VectorClock.compare_eq_Equal_iff, VectorClock.compare_eq_Equal_iff]
    tauto
  · rw [VectorClock.compare_eq_Concurrent_iff,
      VectorClock.compare_eq_Concurrent_iff]
    tauto

/-- C8: over vector clocks (duplicate-free key lists, non-negative counters
per the data model of §3), `merge` is associative, commutative, and
idempotent under `HashMap` equality; `merge v (increment v p)` equals
`increment v p`; the merge dominates both inputs under `happensBefore`; and
`increment` strictly advances: `happensBefore v (increment v p)` holds while
`happensBefore (increment v p) v` does not. -/
theorem c8_merge_algebra (u v w : VectorClock) (p : String)
    (hu : (HMap.keys u).Nodup) (hv : (HMap.keys v).Nodup)
    (hw : (HMap.keys w).Nodup) (hnu : VectorClock.NonNeg u)
    (hnv : VectorClock.NonNeg v) (_hnw : VectorClock.NonNeg w) :
    VectorClock.MapEqv
        (VectorClock.merge (VectorClock.merge u v) w)
        (VectorClock.merge u (VectorClock.merge v w))
    ∧ VectorClock.MapEqv (VectorClock.merge u v) (VectorClock.merge v u)
    ∧ VectorClock.MapEqv (VectorClock.merge v v) v
    ∧ VectorClock.MapEqv
        (VectorClock.merge v (VectorClock.increment v p))
        (VectorClock.increment v p)
    ∧ VectorClock.happens_before v (VectorClock.merge v w) = true
    ∧ VectorClock.happens_before w (VectorClock.merge v w) = true
    ∧ VectorClock.happens_before v (VectorClock.increment v p) = true
    ∧ VectorClock.happens_before (VectorClock.increment v p) v = false :=
  ⟨VectorClock.merge_assoc_eqv u v w hv hw hnu,
    VectorClock.merge_comm_eqv u v hu hv hnu hnv,
    VectorClock.merge_self_eqv v hv,
    VectorClock.merge_increment_eqv v p hv,
    VectorClock.hb_merge_left v w hw,
    VectorClock.hb_merge_right v w hw hnv,
    VectorClock.hb_increment v p,
    VectorClock.not_hb_increment v p⟩

/-- Witness for C8 at the concrete clocks `u = {a:1}`, `v = {b:2}`,
`w = {a:2, c:1}` and peer `a`. -/
theorem c8_merge_algebra_witness :
    ((HMap.keys [("a", (1 : Int))]).Nodup
      ∧ (HMap.keys [("b", (2 : Int))]).Nodup
      ∧ (HMap.keys [("a", (2 : Int)), ("c", 1)]).Nodup
      ∧ VectorClock.NonNeg [("a", 1)]
      ∧ VectorClock.NonNeg [("b", 2)]
      ∧ VectorClock.NonNeg [("a", 2), ("c", 1)])
    ∧ (VectorClock.MapEqv
        (VectorClock.merge (VectorClock.merge [("a", 1)] [("b", 2)])
          [("a", 2), ("c", 1)])
        (VectorClock.merge [("a", 1)]
          (VectorClock.merge [("b", 2)] [("a", 2), ("c", 1)]))
      ∧ VectorClock.MapEqv (VectorClock.merge [("a", 1)] [("b", 2)])
          (VectorClock.merge [("b", 2)] [("a", 1)])
      ∧ VectorClock.MapEqv (VectorClock.merge [("b", 2)] [("b", 2)]) [("b", 2)]
      ∧ VectorClock.MapEqv
          (VectorClock.merge [("b", 2)] (VectorClock.increment [("b", 2)] "a"))
          (VectorClock.increment [("b", 2)] "a")
      ∧ VectorClock.happens_before [("b", 2)]
          (VectorClock.merge [("b", 2)] [("a", 2), ("c", 1)]) = true
      ∧ VectorClock.happens_before [("a", 2), ("c", 1)]
          (VectorClock.merge [("b", 2)] [("a", 2), ("c", 1)]) = true
      ∧ VectorClock.happens_before [("b", 2)]
          (VectorClock.increment [("b", 2)] "a") = true
      ∧ VectorClock.happens_before (VectorClock.increment [("b", 2)] "a")
          [("b", 2)] = false) :=
  ⟨⟨by decide, by decide, by decide,
      by unfold VectorClock.NonNeg; decide,
      by unfold VectorClock.NonNeg; decide,
      by unfold VectorClock.NonNeg; decide⟩,
    c8_merge_algebra [("a", 1)] [("b", 2)] [("a", 2), ("c", 1)] "a"
      (by decide) (by decide) (by decide)
      (by unfold VectorClock.NonNeg; decide)
      (by unfold VectorClock.NonNeg; decide)
      (by unfold VectorClock.NonNeg; decide)⟩

namespace HMap

theorem lookup_insert {β : Type} (m : List (String × β)) (k' : String)
    (x : β) (k : String) :
    List.lookup k (insert m k' x) =
      if k = k' then some x else List.lookup k m := by
  rcases hm : List.lookup k' m with _ | y
  · have hms : (List.lookup k' m).isSome = false := by rw [hm]; rfl
    rw [insert]
    simp only [hms, Bool.false_eq_true, if_false]
    rw [lookup_append_single]
    by_cases hk : k = k'
    · subst hk
      rw [hm, if_pos rfl]
    · rw [if_neg hk]
      rcases hy : List.lookup k m with _ | z
      · simp [hk]
      · simp [hk]
  · have hms : (List.lookup k' m).isSome = true := by rw [hm]; rfl
    rw [insert]
    simp only [hms, if_true]
    rw [lookup_map_set]
    by_cases hk : k = k'
    · subst hk
      rw [if_pos rfl, if_pos rfl, hm]
      rfl
    · rw [if_neg hk, if_neg hk]

theorem lookup_foldl_insert {β : Type} (base entries : List (String × β))
    (hent : (keys entries).Nodup) (k : String) :
    List.lookup k
        (entries.foldl (fun m (kv : String × β) => insert m kv.1 kv.2) base) =
      match List.lookup k entries with
      | some x => some x
      | none => List.lookup k base := by
  induction entries generalizing base with
  | nil => rfl
  | cons kv t ih =>
    rcases kv with ⟨a, b⟩
    have hw2 : (a :: keys t).Nodup := hent
    have hat : a ∉ keys t := (List.nodup_cons.mp hw2).1
    have hts : (keys t).Nodup := (List.nodup_cons.mp hw2).2
    have hfold : (((a, b) :: t).foldl
        (fun m (kv : String × β) => insert m kv.1 kv.2) base) =
        t.foldl (fun m (kv : String × β) => insert m kv.1 kv.2)
          (insert base a b) := rfl
    rw [hfold, ih (insert base a b) hts]
    by_cases hk : k = a
    · subst hk
      rw [lookup_none_of_not_mem_keys hat]
      simp only [List.lookup_cons, beq_self_eq_true]
      rw [lookup_insert, if_pos rfl]
    · have hb : (k == a) = false := by simpa [beq_iff_eq] using hk
      simp only [List.lookup_cons, hb]
      rcases hy : List.lookup k t with _ | z
      · rw [lookup_insert, if_neg hk]
      · rfl

end HMap

/-- C2: evaluation of `resolve_conflicts` on the three operations
`(document d1, timestamp 3)`, `(d2, 2)`, `(d1, 1)`: the list is already in
descending timestamp order, the two `d1` operations are not adjacent, and
`dedup_by` (which removes only consecutive duplicates) keeps BOTH of them —
the output is the input unchanged and contains two operations for `d1`,
contradicting the most-recent-per-document rule the function's own
last-writer-wins comment and the specification describe. -/
theorem c2_resolve_conflicts_keeps_stale_op :
    CRDTResolver.resolve_conflicts
        [⟨"o1", OperationType.Insert, "c", "d1", none, [], 3, "p"⟩,
          ⟨"o2", OperationType.Insert, "c", "d2", none, [], 2, "p"⟩,
          ⟨"o3", OperationType.Insert, "c", "d1", none, [], 1, "p"⟩] =
      [⟨"o1", OperationType.Insert, "c", "d1", none, [], 3, "p"⟩,
        ⟨"o2", OperationType.Insert, "c", "d2", none, [], 2, "p"⟩,
        ⟨"o3", OperationType.Insert, "c", "d1", none, [], 1, "p"⟩]
    ∧ (CRDTResolver.resolve_conflicts
        [⟨"o1", OperationType.Insert, "c", "d1", none, [], 3, "p"⟩,
          ⟨"o2", OperationType.Insert, "c", "d2", none, [], 2, "p"⟩,
          ⟨"o3", OperationType.Insert, "c", "d1", none, [], 1, "p"⟩]).countP
        (fun o => o.document_id == "d1") = 2 :=
  ⟨rfl, rfl⟩

/-- C3 counterexample: `local` (not deleted, vector `{a:1}`) and `remote`
(deleted, vector `{b:1}`) are `Concurrent` and `remote`'s vector is not
dominated by `local`'s, yet `merge_documents` returns a NON-tombstone
(`deleted = false`), refuting the concurrent-tombstone rule as claimed. -/
theorem c3_counterexample :
    VectorClock.compare
        (DistributedDocument.mk "d" EntryType.Memory none [("a", 1)] 10 "a"
          none false).vector
        (DistributedDocument.mk "d" EntryType.Memory none [("b", 1)] 11 "b"
          none true).vector = ComparisonResult.Concurrent
    ∧ (DistributedDocument.mk "d" EntryType.Memory none [("b", 1)] 11 "b"
        none true).deleted = true
    ∧ VectorClock.happens_before [("b", 1)] [("a", 1)] = false
    ∧ (CRDTResolver.merge_documents
        (DistributedDocument.mk "d" EntryType.Memory none [("a", 1)] 10 "a"
          none false)
        (DistributedDocument.mk "d" EntryType.Memory none [("b", 1)] 11 "b"
          none true)).deleted = false :=
  ⟨by decide, rfl, by decide, rfl⟩

/-- C3 amended: when the two versions' vector clocks compare as `Concurrent`,
`merge_documents` inherits the `deleted` flag from `local`: the result is a
tombstone iff `local` is deleted; a concurrent remote tombstone is NOT
honoured (the concurrent branch never consults `deleted`). -/
theorem c3_concurrent_deleted_from_local
    (localDoc remoteDoc : DistributedDocument)
    (h : VectorClock.compare localDoc.vector remoteDoc.vector =
      ComparisonResult.Concurrent) :
    (CRDTResolver.merge_documents localDoc remoteDoc).deleted =
      localDoc.deleted := by
  unfold CRDTResolver.merge_documents
  rw [h]
  rcases hlp : localDoc.payload with _ | lp <;>
    rcases hrp : remoteDoc.payload with _ | rp <;> rfl

/-- Witness for the amended C3 at concrete concurrent documents. -/
theorem c3_concurrent_deleted_from_local_witness :
    VectorClock.compare
        (DistributedDocument.mk "d" EntryType.Memory none [("a", 2)] 4 "a"
          none true).vector
        (DistributedDocument.mk "d" EntryType.Memory none [("b", 3)] 6 "b"
          none false).vector = ComparisonResult.Concurrent
    ∧ (CRDTResolver.merge_documents
        (DistributedDocument.mk "d" EntryType.Memory none [("a", 2)] 4 "a"
          none true)
        (DistributedDocument.mk "d" EntryType.Memory none [("b", 3)] 6 "b"
          none false)).deleted =
      (DistributedDocument.mk "d" EntryType.Memory none [("a", 2)] 4 "a"
        none true).deleted :=
  ⟨by decide,
    c3_concurrent_deleted_from_local
      (DistributedDocument.mk "d" EntryType.Memory none [("a", 2)] 4 "a"
        none true)
      (DistributedDocument.mk "d" EntryType.Memory none [("b", 3)] 6 "b"
        none false)
      (by decide)⟩

/-- C4 counterexample: with `local.payload` absent and a `Concurrent` remote
carrying payload `{k: 1}`, the merged document's payload is `None` — the
remote's field is dropped rather than mapped to remote's value, because the
concurrent branch merges payloads only when BOTH documents carry one. -/
theorem c4_counterexample :
    VectorClock.compare [("a", 1)] [("b", 1)] = ComparisonResult.Concurrent
    ∧ (DistributedDocument.mk "d" EntryType.Memory (some [("k", Json.num 1)])
        [("b", 1)] 7 "b" none false).payload = some [("k", Json.num 1)]
    ∧ (CRDTResolver.merge_documents
        (DistributedDocument.mk "d" EntryType.Memory none [("a", 1)] 5 "a"
          none false)
        (DistributedDocument.mk "d" EntryType.Memory (some [("k", Json.num 1)])
          [("b", 1)] 7 "b" none false)).payload = none :=
  ⟨by decide, rfl, rfl⟩

/-- C4 amended: in the `Concurrent` case, PROVIDED both payloads are present,
the merged payload maps every field of `remote.payload` to remote's value and
preserves the other local fields; the merged vector is
`merge(local.vector, remote.vector)` and dominates both inputs under
`happensBefore`; the timestamp is the maximum of the two; and `entryType` is
`local`'s. (When either payload is absent the payload stays `local`'s, per
the counterexample.) -/
theorem c4_concurrent_field_merge (localDoc remoteDoc : DistributedDocument)
    (lp rp : List (String × Json))
    (h : VectorClock.compare localDoc.vector remoteDoc.vector =
      ComparisonResult.Concurrent)
    (hlp : localDoc.payload = some lp) (hrp : remoteDoc.payload = some rp)
    (hrk : (HMap.keys rp).Nodup)
    (hrv : (HMap.keys remoteDoc.vector).Nodup)
    (hnl : VectorClock.NonNeg localDoc.vector) :
    (∃ mp, (CRDTResolver.merge_documents localDoc remoteDoc).payload = some mp
        ∧ ∀ k, List.lookup k mp =
            match List.lookup k rp with
            | some x => some x
            | none => List.lookup k lp)
    ∧ (CRDTResolver.merge_documents localDoc remoteDoc).vector =
        VectorClock.merge localDoc.vector remoteDoc.vector
    ∧ VectorClock.happens_before localDoc.vector
        (CRDTResolver.merge_documents localDoc remoteDoc).vector = true
    ∧ VectorClock.happens_before remoteDoc.vector
        (CRDTResolver.merge_documents localDoc remoteDoc).vector = true
    ∧ (CRDTResolver.merge_documents localDoc remoteDoc).timestamp =
        max localDoc.timestamp remoteDoc.timestamp
    ∧ (CRDTResolver.merge_documents localDoc remoteDoc).entry_type =
        localDoc.entry_type := by
  have hpayload : (CRDTResolver.merge_documents localDoc remoteDoc).payload =
      some (rp.foldl (fun m (kv : String × Json) => HMap.insert m kv.1 kv.2)
        lp) := by
    unfold CRDTResolver.merge_documents
    rw [h, hlp, hrp]
  have hvec : (CRDTResolver.merge_documents localDoc remoteDoc).vector =
      VectorClock.merge localDoc.vector remoteDoc.vector := by
    unfold CRDTResolver.merge_documents
    rw [h, hlp, hrp]
  have hts : (CRDTResolver.merge_documents localDoc remoteDoc).timestamp =
      max localDoc.timestamp remoteDoc.timestamp := by
    unfold CRDTResolver.merge_documents
    rw [h, hlp, hrp]
  have het : (CRDTResolver.merge_documents localDoc remoteDoc).entry_type =
      localDoc.entry_type := by
    unfold CRDTResolver.merge_documents
    rw [h, hlp, hrp]
  refine ⟨⟨_, hpayload, ?_⟩, hvec, ?_, ?_, hts, het⟩
  · intro k
    have hfi := HMap.lookup_foldl_insert lp rp hrk k
    rcases hrpk : List.lookup k rp with _ | x <;> rw [hrpk] at hfi <;>
      exact hfi
  · rw [hvec]
    exact VectorClock.hb_merge_left _ _ hrv
  · rw [hvec]
    exact VectorClock.hb_merge_right _ _ hrv hnl

/-- Witness for the amended C4 at the concurrent-merge scenario of §8 of the
specification: local `{k1:1, k2:2}` with vector `{a:2, b:1}`, remote
`{k1:42}` with vector `{a:1, b:2}`. -/
theorem c4_concurrent_field_merge_witness :
    (VectorClock.compare [("a", 2), ("b", 1)] [("a", 1), ("b", 2)] =
        ComparisonResult.Concurrent
      ∧ (HMap.keys [("k1", Json.num 42)]).Nodup
      ∧ (HMap.keys [("a", (2 : Int)), ("b", 1)]).Nodup
      ∧ VectorClock.NonNeg [("a", 2), ("b", 1)])
    ∧ ((∃ mp, (CRDTResolver.merge_documents
          (DistributedDocument.mk "d" EntryType.Memory
            (some [("k1", Json.num 1), ("k2", Json.num 2)])
            [("a", 2), ("b", 1)] 5 "a" none false)
          (DistributedDocument.mk "d" EntryType.Auth
            (some [("k1", Json.num 42)])
            [("a", 1), ("b", 2)] 7 "b" none false)).payload = some mp
        ∧ ∀ k, List.lookup k mp =
            match List.lookup k [("k1", Json.num 42)] with
            | some x => some x
            | none => List.lookup k [("k1", Json.num 1), ("k2", Json.num 2)])
      ∧ (CRDTResolver.merge_documents
          (DistributedDocument.mk "d" EntryType.Memory
            (some [("k1", Json.num 1), ("k2", Json.num 2)])
            [("a", 2), ("b", 1)] 5 "a" none false)
          (DistributedDocument.mk "d" EntryType.Auth
            (some [("k1", Json.num 42)])
            [("a", 1), ("b", 2)] 7 "b" none false)).vector =
          VectorClock.merge [("a", 2), ("b", 1)] [("a", 1), ("b", 2)]
      ∧ VectorClock.happens_before [("a", 2), ("b", 1)]
          (CRDTResolver.merge_documents
            (DistributedDocument.mk "d" EntryType.Memory
              (some [("k1", Json.num 1), ("k2", Json.num 2)])
              [("a", 2), ("b", 1)] 5 "a" none false)
            (DistributedDocument.mk "d" EntryType.Auth
              (some [("k1", Json.num 42)])
              [("a", 1), ("b", 2)] 7 "b" none false)).vector = true
      ∧ VectorClock.happens_before [("a", 1), ("b", 2)]
          (CRDTResolver.merge_documents
            (DistributedDocument.mk "d" EntryType.Memory
              (some [("k1", Json.num 1), ("k2", Json.num 2)])
              [("a", 2), ("b", 1)] 5 "a" none false)
            (DistributedDocument.mk "d" EntryType.Auth
              (some [("k1", Json.num 42)])
              [("a", 1), ("b", 2)] 7 "b" none false)).vector = true
      ∧ (CRDTResolver.merge_documents
          (DistributedDocument.mk "d" EntryType.Memory
            (some [("k1", Json.num 1), ("k2", Json.num 2)])
            [("a", 2), ("b", 1)] 5 "a" none false)
          (DistributedDocument.mk "d" EntryType.Auth
            (some [("k1", Json.num 42)])
            [("a", 1), ("b", 2)] 7 "b" none false)).timestamp = max 5 7
      ∧ (CRDTResolver.merge_documents
          (DistributedDocument.mk "d" EntryType.Memory
            (some [("k1", Json.num 1), ("k2", Json.num 2)])
            [("a", 2), ("b", 1)] 5 "a" none false)
          (DistributedDocument.mk "d" EntryType.Auth
            (some [("k1", Json.num 42)])
            [("a", 1), ("b", 2)] 7 "b" none false)).entry_type =
          EntryType.Memory) :=
  ⟨⟨by decide, by decide, by decide, by unfold VectorClock.NonNeg; decide⟩,
    c4_concurrent_field_merge
      (DistributedDocument.mk "d" EntryType.Memory
        (some [("k1", Json.num 1), ("k2", Json.num 2)])
        [("a", 2), ("b", 1)] 5 "a" none false)
      (DistributedDocument.mk "d" EntryType.Auth
        (some [("k1", Json.num 42)])
        [("a", 1), ("b", 2)] 7 "b" none false)
      [("k1", Json.num 1), ("k2", Json.num 2)] [("k1", Json.num 42)]
      (by decide) rfl rfl (by decide) (by decide)
      (by unfold VectorClock.NonNeg; decide)⟩

/-- C1: evaluation of the encryption round trip at a master key pair
installed via `set_master_key` whose `public_key` and `private_key` differ —
as for every pair produced by `PQCKeyPair::generate`, which draws the two as
independent random bytes. `encrypt_data` succeeds, encrypting under the
PUBLIC key; `decrypt_data` then decrypts under the PRIVATE key of the same
symmetric AES-256-GCM cipher, authentication fails, and the round trip
returns the error `decryption failed` instead of the plaintext, contradicting
both the claim and `decrypt_data`'s own doc comment ("decrypts data encrypted
with EncryptData"). -/
theorem c1_roundtrip_fails_eval :
    EncryptionManager.encrypt_data tagCipher shaId (List.replicate 12 0)
        (List.replicate 64 7) mgrC1 0 [42] "k1" =
      Except.ok
        { key_id := "k1", algorithm := "AES-256-GCM"
          ciphertext := List.replicate 12 0 ++ ([42] ++ List.replicate 32 0)
          signature := List.replicate 64 7 }
    ∧ EncryptionManager.decrypt_data tagCipher shaId mgrC1 0
        { key_id := "k1", algorithm := "AES-256-GCM"
          ciphertext := List.replicate 12 0 ++ ([42] ++ List.replicate 32 0)
          signature := List.replicate 64 7 } =
      Except.error "decryption failed"
    ∧ kpC1.public_key ≠ kpC1.private_key
    ∧ PQCKeyPair.is_active kpC1 0 = true :=
  ⟨rfl, rfl, by decide, rfl⟩

/-- C5: evaluation of the monotonic-local-writes scenario at peer `a-1`:
`Collection::insert {id:"d1", value:"x"}` into `mem`, then
`Collection::update("d1", {value:"y"})`, then `find`. The update path is a
TOP-LEVEL shallow merge through storage — it neither rebuilds the CRDT
metadata nor increments the clock — so the returned document carries the
patch as a top-level `value` field and its stored vector REMAINS `{a-1: 1}`,
not the claimed `{a-1: 2}`. -/
theorem c5_monotonic_writes_eval :
    ∃ fs1 fs2 doc,
      DistributedCollection.insert e0 s0 "b" "mem" "a-1" 5
          [("id", Json.str "d1"), ("value", Json.str "x")] fs0 =
        (Except.ok [("id", Json.str "d1"), ("value", Json.str "x")], fs1)
      ∧ DistributedCollection.update e0 s0 "b" "mem" "d1"
          [("value", Json.str "y")] fs1 = (Except.ok 1, fs2)
      ∧ FileStorage.find e0 s0 "b" "mem" "d1" fs2 = Except.ok (some doc)
      ∧ List.lookup "vector" doc = some (Json.obj [("a-1", Json.num 1)])
      ∧ List.lookup "value" doc = some (Json.str "y") :=
  ⟨_, _, _, rfl, rfl, rfl, rfl, rfl⟩

/-- C6 counterexample: a document whose `id` field is the EMPTY string passes
`insert`'s validation (`get("id").and_then(as_str)` only requires presence
and string-ness), the call returns `Ok`, and the document file is written at
`<base>/<collection>/.json` — the claim says it must fail. -/
theorem c6_empty_id_accepted :
    (FileStorage.insert e0 s0 "b" "c" [("id", Json.str "")] fs0).1 =
      Except.ok ()
    ∧ List.lookup "b/c/.json"
        (FileStorage.insert e0 s0 "b" "c" [("id", Json.str "")] fs0).2.files =
      some (Json.obj [("id", Json.str "")]) :=
  ⟨rfl, rfl⟩

/-- C6 amended: `FileStorage::insert` fails with
`document must have an 'id' field` — writing no file — exactly when the
document's `id` field is missing or not a string; an empty-string `id` is
accepted. -/
theorem c6_insert_id_validation (e : EncOps) (s : SerdeOps)
    (baseDir collection : String) (doc : List (String × Json)) (fs : FS)
    (h : ∀ j, List.lookup "id" doc = some j → ∀ sid, j ≠ Json.str sid) :
    FileStorage.insert e s baseDir collection doc fs =
      (Except.error "document must have an 'id' field", fs) := by
  unfold FileStorage.insert
  rcases hid : List.lookup "id" doc with _ | j
  · rfl
  · rcases j with _ | b | n | sid | l | o
    · rfl
    · rfl
    · rfl
    · exact absurd rfl (h (Json.str sid) hid sid)
    · rfl
    · rfl

/-- Witness for the amended C6 at a document whose `id` is the number `3`. -/
theorem c6_insert_id_validation_witness :
    (∀ j, List.lookup "id" [("id", Json.num 3)] = some j →
      ∀ sid, j ≠ Json.str sid)
    ∧ FileStorage.insert e0 s0 "b" "c" [("id", Json.num 3)] fs0 =
      (Except.error "document must have an 'id' field", fs0) := by
  have hproof : ∀ j, List.lookup "id" [("id", Json.num 3)] = some j →
      ∀ sid, j ≠ Json.str sid := by
    intro j hj sid heq
    rw [show List.lookup "id" [("id", Json.num 3)] = some (Json.num 3)
      from rfl, Option.some.injEq] at hj
    subst hj
    exact Json.noConfusion heq
  exact ⟨hproof,
    c6_insert_id_validation e0 s0 "b" "c" [("id", Json.num 3)] fs0 hproof⟩

/-- C10: `create_network` with a previously unknown `network_id` registers
the configuration with an EMPTY collections map (the supplied collections are
discarded) and the other fields unchanged, zero-initializes the network's
stats, and returns the id; with an already-registered id it returns the id
and leaves the networks and stats maps unchanged. -/
theorem c10_create_network (st : NetworkManagerState) (cfg : NetworkConfig) :
    (List.lookup cfg.network_id st.networks = none →
      (NetworkManager.create_network st cfg).1 = cfg.network_id
      ∧ List.lookup cfg.network_id
          (NetworkManager.create_network st cfg).2.networks =
        some { cfg with collections := [] }
      ∧ List.lookup cfg.network_id
          (NetworkManager.create_network st cfg).2.stats =
        some (NetworkStats.mk cfg.network_id 0 0 0 0 0 0 0))
    ∧ ((List.lookup cfg.network_id st.networks).isSome = true →
      (NetworkManager.create_network st cfg).1 = cfg.network_id
      ∧ (NetworkManager.create_network st cfg).2.networks = st.networks
      ∧ (NetworkManager.create_network st cfg).2.stats = st.stats) := by
  constructor
  · intro hnone
    have hns : (List.lookup cfg.network_id st.networks).isSome = false := by
      rw [hnone]; rfl
    have h1 : NetworkManager.create_network st cfg =
        (cfg.network_id,
          { st with
            initialized := true
            networks := HMap.insert st.networks cfg.network_id
              { cfg with collections := [] }
            stats := HMap.insert st.stats cfg.network_id
              (NetworkStats.mk cfg.network_id 0 0 0 0 0 0 0) }) := by
      unfold NetworkManager.create_network
      simp only [hns, Bool.false_eq_true, if_false]
    rw [h1]
    refine ⟨rfl, ?_, ?_⟩
    · show List.lookup cfg.network_id
        (HMap.insert st.networks cfg.network_id
          { cfg with collections := [] }) =
        some { cfg with collections := [] }
      rw [HMap.lookup_insert, if_pos rfl]
    · show List.lookup cfg.network_id
        (HMap.insert st.stats cfg.network_id
          (NetworkStats.mk cfg.network_id 0 0 0 0 0 0 0)) =
        some (NetworkStats.mk cfg.network_id 0 0 0 0 0 0 0)
      rw [HMap.lookup_insert, if_pos rfl]
  · intro hsome
    have h1 : NetworkManager.create_network st cfg =
        (cfg.network_id, { st with initialized := true }) := by
      unfold NetworkManager.create_network
      simp only [hsome, if_true]
    rw [h1]
    exact ⟨rfl, rfl, rfl⟩

/-- Witness for C10: creating `n1` in a fresh manager (unknown id, with the
supplied collections visibly discarded), then creating it again
(known id, maps unchanged). -/
theorem c10_create_network_witness :
    (List.lookup cfgC10.network_id nmStC10.networks = none
      ∧ ((NetworkManager.create_network nmStC10 cfgC10).1 = cfgC10.network_id
        ∧ List.lookup cfgC10.network_id
            (NetworkManager.create_network nmStC10 cfgC10).2.networks =
          some { cfgC10 with collections := [] }
        ∧ List.lookup cfgC10.network_id
            (NetworkManager.create_network nmStC10 cfgC10).2.stats =
          some (NetworkStats.mk cfgC10.network_id 0 0 0 0 0 0 0)))
    ∧ ((List.lookup cfgC10.network_id
          (NetworkManager.create_network nmStC10 cfgC10).2.networks).isSome =
        true
      ∧ ((NetworkManager.create_network
            (NetworkManager.create_network nmStC10 cfgC10).2 cfgC10).1 =
          cfgC10.network_id
        ∧ (NetworkManager.create_network
            (NetworkManager.create_network nmStC10 cfgC10).2 cfgC10).2.networks
          = (NetworkManager.create_network nmStC10 cfgC10).2.networks
        ∧ (NetworkManager.create_network
            (NetworkManager.create_network nmStC10 cfgC10).2 cfgC10).2.stats =
          (NetworkManager.create_network nmStC10 cfgC10).2.stats)) :=
  ⟨⟨rfl, (c10_create_network nmStC10 cfgC10).1 rfl⟩,
    ⟨rfl, (c10_create_network
      (NetworkManager.create_network nmStC10 cfgC10).2 cfgC10).2 rfl⟩⟩

namespace HMap

theorem mem_insert_prop {β : Type} (P : String → Prop)
    (m : List (String × β)) (k : String) (x : β)
    (hm : ∀ q ∈ m, P q.1) (hk : P k) : ∀ q ∈ insert m k x, P q.1 := by
  intro q hq
  rw [insert] at hq
  by_cases hs : (List.lookup k m).isSome = true
  · rw [if_pos hs] at hq
    rcases List.mem_map.mp hq with ⟨p, hp, hqe⟩
    by_cases hpk : (p.1 == k) = true
    · rw [if_pos hpk] at hqe
      rw [← hqe]
      exact hm p hp
    · rw [if_neg hpk] at hqe
      rw [← hqe]
      exact hm p hp
  · rw [if_neg hs] at hq
    rcases List.mem_append.mp hq with h | h
    · exact hm q h
    · rw [List.mem_singleton.mp h]
      exact hk

theorem mem_remove_subset {β : Type} (m : List (String × β)) (k : String) :
    ∀ q ∈ remove m k, q ∈ m := by
  intro q hq
  exact List.mem_of_mem_filter hq

theorem lookup_remove {β : Type} (m : List (String × β)) (k' k : String) :
    List.lookup k (remove m k') =
      if k = k' then none else List.lookup k m := by
  induction m with
  | nil =>
    by_cases h : k = k' <;> simp [remove, h]
  | cons p t ih =>
    rcases p with ⟨a, b⟩
    by_cases ha : a = k'
    · subst ha
      have hba : (a == a) = true := by simp
      have hrm : remove ((a, b) :: t) a = remove t a := by
        simp [remove, List.filter]
      rw [hrm, ih]
      by_cases hk : k = a
      · rw [if_pos hk, if_pos hk]
      · have hb : (k == a) = false := by simpa [beq_iff_eq] using hk
        rw [if_neg hk, if_neg hk]
        simp only [List.lookup_cons, hb]
    · have hba : (a == k') = false := by simpa [beq_iff_eq] using ha
      have hrm : remove ((a, b) :: t) k' = (a, b) :: remove t k' := by
        simp [remove, List.filter, hba]
      rw [hrm]
      by_cases hk : k = a
      · subst hk
        have hkk : k ≠ k' := fun h => ha h
        simp only [List.lookup_cons, beq_self_eq_true, if_neg hkk]
      · have hb : (k == a) = false := by simpa [beq_iff_eq] using hk
        simp only [List.lookup_cons, hb]
        exact ih

end HMap

namespace FileStorage

theorem decryptFieldAcc_no_suffix (e : EncOps) (s : SerdeOps)
    (payload acc : List (String × Json)) (key : String) (value : Json)
    (acc2 : List (String × Json))
    (hacc : ∀ q ∈ acc, endsWithS q.1 "_encrypted" = false)
    (h : decryptFieldAcc e s payload acc key value = Except.ok acc2) :
    ∀ q ∈ acc2, endsWithS q.1 "_encrypted" = false := by
  unfold decryptFieldAcc at h
  by_cases hsuf : endsWithS key "_encrypted" = true
  · rw [if_pos hsuf] at h
    have hi := Except.ok.inj h
    subst hi
    exact hacc
  · have hsufF : endsWithS key "_encrypted" = false := by
      cases hq : endsWithS key "_encrypted"
      · rfl
      · exact absurd hq hsuf
    have hins : ∀ x : Json, ∀ q ∈ HMap.insert acc key x,
        endsWithS q.1 "_encrypted" = false := fun x =>
      HMap.mem_insert_prop (fun kk => endsWithS kk "_encrypted" = false)
        acc key x hacc hsufF
    rw [if_neg hsuf] at h
    split at h
    · split at h
      · split at h
        · exact Except.noConfusion h
        · split at h
          · exact Except.noConfusion h
          · have hi := Except.ok.inj h
            subst hi
            exact hins _
      · have hi := Except.ok.inj h
        subst hi
        exact hacc
    · have hi := Except.ok.inj h
      subst hi
      exact hins _

theorem decryptPayloadGo_no_suffix (e : EncOps) (s : SerdeOps)
    (payload : List (String × Json)) :
    ∀ entries acc out,
      (∀ q ∈ acc, endsWithS q.1 "_encrypted" = false) →
      decryptPayloadGo e s payload entries acc = Except.ok out →
      ∀ q ∈ out, endsWithS q.1 "_encrypted" = false := by
  intro entries
  induction entries with
  | nil =>
    intro acc out hacc hok
    have hok2 : Except.ok acc = Except.ok (ε := String) out := hok
    have hae : acc = out := Except.ok.inj hok2
    subst hae
    exact hacc
  | cons kv rest ih =>
    intro acc out hacc hok
    rcases kv with ⟨key, value⟩
    have hok2 : (match decryptFieldAcc e s payload acc key value with
        | Except.error er => Except.error er
        | Except.ok acc2 => decryptPayloadGo e s payload rest acc2) =
        Except.ok out := hok
    rcases hstep : decryptFieldAcc e s payload acc key value with er | acc2
    · rw [hstep] at hok2
      exact Except.noConfusion hok2
    · rw [hstep] at hok2
      exact ih acc2 out
        (decryptFieldAcc_no_suffix e s payload acc key value acc2 hacc hstep)
        hok2

end FileStorage

namespace FileStorage

theorem decrypt_document_payload (e : EncOps) (s : SerdeOps)
    (doc out : List (String × Json))
    (h : decrypt_document e s doc = Except.ok out) :
    (∃ p m, List.lookup "payload" doc = some (Json.obj p)
        ∧ decryptPayloadGo e s p p [] = Except.ok m
        ∧ List.lookup "payload" out = some (Json.obj m))
    ∨ (List.lookup "payload" out = List.lookup "payload" doc
        ∧ ∀ p, List.lookup "payload" doc ≠ some (Json.obj p)) := by
  have hpne : ("payload" : String) ≠ "encrypted" := by decide
  have hpnk : ("payload" : String) ≠ "encryption_key_id" := by decide
  have h2 : (match
      (match List.lookup "payload" doc with
        | some (Json.obj payload) =>
          match decryptPayloadGo e s payload payload [] with
          | Except.error er => Except.error er
          | Except.ok m => Except.ok (HMap.insert doc "payload" (Json.obj m))
        | _ => Except.ok doc) with
    | Except.error er => Except.error er
    | Except.ok doc2 =>
      Except.ok (HMap.remove (HMap.remove doc2 "encrypted")
        "encryption_key_id")) = Except.ok out := h
  rcases hp : List.lookup "payload" doc with _ | j
  · rw [hp] at h2
    have ho : out = HMap.remove (HMap.remove doc "encrypted")
        "encryption_key_id" := (Except.ok.inj h2).symm
    right
    constructor
    · rw [ho, HMap.lookup_remove, if_neg hpnk, HMap.lookup_remove,
        if_neg hpne, hp]
    · intro p hcon
      exact Option.noConfusion hcon
  · rw [hp] at h2
    rcases j with _ | b | n | sv | l | p
    case obj =>
      have h3 : (match
          (match decryptPayloadGo e s p p [] with
            | Except.error er => (Except.error er : Except String
                (List (String × Json)))
            | Except.ok m =>
              Except.ok (HMap.insert doc "payload" (Json.obj m))) with
        | Except.error er => (Except.error er : Except String
            (List (String × Json)))
        | Except.ok doc2 =>
          Except.ok (HMap.remove (HMap.remove doc2 "encrypted")
            "encryption_key_id")) = Except.ok out := h2
      rcases hgo : decryptPayloadGo e s p p [] with er | m
      · rw [hgo] at h3
        exact Except.noConfusion (show Except.error (α := List (String ×
          Json)) er = Except.ok out from h3)
      · rw [hgo] at h3
        have ho : out = HMap.remove (HMap.remove
            (HMap.insert doc "payload" (Json.obj m)) "encrypted")
            "encryption_key_id" :=
          (Except.ok.inj (show Except.ok (HMap.remove (HMap.remove
            (HMap.insert doc "payload" (Json.obj m)) "encrypted")
            "encryption_key_id") = Except.ok out from h3)).symm
        left
        refine ⟨p, m, rfl, hgo, ?_⟩
        rw [ho, HMap.lookup_remove, if_neg hpnk, HMap.lookup_remove,
          if_neg hpne, HMap.lookup_insert, if_pos rfl]
    all_goals {
      have ho : out = HMap.remove (HMap.remove doc "encrypted")
          "encryption_key_id" := (Except.ok.inj h2).symm
      right
      constructor
      · rw [ho, HMap.lookup_remove, if_neg hpnk, HMap.lookup_remove,
          if_neg hpne, hp]
      · intro p2 hcon
        exact Json.noConfusion (Option.some.inj hcon) }

theorem findBlobStep_payload (fs : FS) (d : List (String × Json)) :
    List.lookup "payload" (findBlobStep fs d) = List.lookup "payload" d
    ∨ ∃ p blob, List.lookup "payload" d = some (Json.obj p)
        ∧ List.lookup "payload" (findBlobStep fs d) =
          some (Json.obj (HMap.remove (HMap.insert p "blob" blob)
            "blobRef")) := by
  have hfb : findBlobStep fs d =
      (match List.lookup "entryType" d with
        | some (Json.str entryType) =>
          if entryType == "MEMORY" then
            match List.lookup "payload" d with
            | some (Json.obj payload) =>
              match List.lookup "blobRef" payload with
              | some (Json.str blobRef) =>
                match List.lookup blobRef fs.blobs with
                | some blob =>
                  HMap.insert d "payload"
                    (Json.obj (HMap.remove (HMap.insert payload "blob" blob)
                      "blobRef"))
                | none => d
              | _ => d
            | _ => d
          else d
        | _ => d) := rfl
  rw [hfb]
  rcases het : List.lookup "entryType" d with _ | j
  · left
    simp only [het]
  · rcases j with _ | b | n | et | l | o
    · left
      simp only [het]
    · left
      simp only [het]
    · left
      simp only [het]
    · simp only [het]
      by_cases hmem : (et == "MEMORY") = true
      · rw [if_pos hmem]
        rcases hp : List.lookup "payload" d with _ | jp
        · left
          simp only [hp]
        · rcases jp with _ | b2 | n2 | s2 | l2 | p
          · left
            simp only [hp]
          · left
            simp only [hp]
          · left
            simp only [hp]
          · left
            simp only [hp]
          · left
            simp only [hp]
          · simp only [hp]
            rcases hbr : List.lookup "blobRef" p with _ | jbr
            · left
              simp only [hbr]
              exact hp
            · rcases jbr with _ | b3 | n3 | blobRef | l3 | o3
              · left
                simp only [hbr]
                exact hp
              · left
                simp only [hbr]
                exact hp
              · left
                simp only [hbr]
                exact hp
              · simp only [hbr]
                rcases hbl : List.lookup blobRef fs.blobs with _ | blob
                · left
                  simp only [hbl]
                  exact hp
                · simp only [hbl]
                  right
                  refine ⟨p, blob, rfl, ?_⟩
                  rw [HMap.lookup_insert, if_pos rfl]
              · left
                simp only [hbr]
                exact hp
              · left
                simp only [hbr]
                exact hp
      · rw [if_neg hmem]
        left
        rfl
    · left
      simp only [het]
    · left
      simp only [het]

end FileStorage

/-- C9: for every stored document whose top-level `encrypted` flag is the
boolean `true`, a successful `FileStorage::find` returns a payload from which
EVERY field whose name ends with the suffix `_encrypted` has been omitted —
including ordinary user fields that merely carry the suffix (the decrypt loop
skips any such key unconditionally); only base fields appear in the returned
payload. -/
theorem c9_find_drops_encrypted_suffix_fields (e : EncOps) (s : SerdeOps)
    (baseDir collection id : String) (fs : FS)
    (stored doc m : List (String × Json))
    (hfile : List.lookup (FileStorage.get_doc_path baseDir collection id)
      fs.files = some (Json.obj stored))
    (henc : List.lookup "encrypted" stored = some (Json.bool true))
    (hfind : FileStorage.find e s baseDir collection id fs =
      Except.ok (some doc))
    (hpay : List.lookup "payload" doc = some (Json.obj m)) :
    ∀ q ∈ m, endsWithS q.1 "_encrypted" = false := by
  rw [FileStorage.find] at hfind
  rw [hfile] at hfind
  have hfind2 : (match
      (match List.lookup "encrypted" stored with
        | some (Json.bool true) => FileStorage.decrypt_document e s stored
        | _ => Except.ok stored) with
    | Except.error er => (Except.error er :
        Except String (Option (List (String × Json))))
    | Except.ok doc1 =>
      Except.ok (some (FileStorage.findBlobStep fs doc1))) =
      Except.ok (some doc) := hfind
  rw [henc] at hfind2
  have hfind3 : (match FileStorage.decrypt_document e s stored with
    | Except.error er => (Except.error er :
        Except String (Option (List (String × Json))))
    | Except.ok doc1 =>
      Except.ok (some (FileStorage.findBlobStep fs doc1))) =
      Except.ok (some doc) := hfind2
  rcases hdd : FileStorage.decrypt_document e s stored with er | doc1
  · rw [hdd] at hfind3
    exact Except.noConfusion (show Except.error (α := Option (List (String ×
      Json))) er = Except.ok (some doc) from hfind3)
  · rw [hdd] at hfind3
    have hdoc : FileStorage.findBlobStep fs doc1 = doc :=
      Option.some.inj (Except.ok.inj (show
        Except.ok (some (FileStorage.findBlobStep fs doc1)) =
        Except.ok (some doc) from hfind3))
    rcases FileStorage.decrypt_document_payload e s stored doc1 hdd with
      ⟨p, md, hsp, hgo, hd1⟩ | ⟨hsame, hnone⟩
    · have hmd : ∀ q ∈ md, endsWithS q.1 "_encrypted" = false :=
        FileStorage.decryptPayloadGo_no_suffix e s p p [] md
          (fun q hq => absurd hq (List.not_mem_nil q)) hgo
      rcases FileStorage.findBlobStep_payload fs doc1 with hsame2 |
        ⟨p2, blob, hp2, hlook⟩
      · rw [hdoc] at hsame2
        rw [hsame2, hd1] at hpay
        have hm : md = m := Json.obj.inj (Option.some.inj hpay)
        subst hm
        exact hmd
      · rw [hdoc] at hlook
        rw [hlook] at hpay
        have hm : HMap.remove (HMap.insert p2 "blob" blob) "blobRef" = m :=
          Json.obj.inj (Option.some.inj hpay)
        have hp2m : p2 = md := by
          rw [hd1] at hp2
          exact (Json.obj.inj (Option.some.inj hp2)).symm
        subst hp2m
        subst hm
        intro q hq
        have hq2 : q ∈ HMap.insert p2 "blob" blob :=
          HMap.mem_remove_subset _ _ q hq
        exact HMap.mem_insert_prop
          (fun kk => endsWithS kk "_encrypted" = false) p2 "blob" blob hmd
          (by decide) q hq2
    · rcases FileStorage.findBlobStep_payload fs doc1 with hsame2 |
        ⟨p2, blob, hp2, hlook⟩
      · rw [hdoc] at hsame2
        rw [hsame2, hsame] at hpay
        exact absurd hpay (hnone m)
      · rw [hsame] at hp2
        exact absurd hp2 (hnone p2)

/-- Witness for C9 at a stored encrypted document whose payload holds the
base field `a` and the ordinary suffix-carrying field `b_encrypted`: `find`
succeeds and returns payload `{a: 1}` with the suffix field omitted. -/
theorem c9_find_drops_encrypted_suffix_fields_witness :
    (List.lookup (FileStorage.get_doc_path "b" "c" "d")
        (FS.mk [("b/c/d.json", Json.obj
          [("id", Json.str "d"), ("encrypted", Json.bool true),
            ("payload", Json.obj [("a", Json.num 1),
              ("b_encrypted", Json.str "junk")])])] []).files =
        some (Json.obj [("id", Json.str "d"), ("encrypted", Json.bool true),
          ("payload", Json.obj [("a", Json.num 1),
            ("b_encrypted", Json.str "junk")])])
      ∧ List.lookup "encrypted"
          [("id", Json.str "d"), ("encrypted", Json.bool true),
            ("payload", Json.obj [("a", Json.num 1),
              ("b_encrypted", Json.str "junk")])] = some (Json.bool true)
      ∧ FileStorage.find e0 s0 "b" "c" "d"
          (FS.mk [("b/c/d.json", Json.obj
            [("id", Json.str "d"), ("encrypted", Json.bool true),
              ("payload", Json.obj [("a", Json.num 1),
                ("b_encrypted", Json.str "junk")])])] []) =
        Except.ok (some [("id", Json.str "d"),
          ("payload", Json.obj [("a", Json.num 1)])])
      ∧ List.lookup "payload"
          [("id", Json.str "d"), ("payload", Json.obj [("a", Json.num 1)])] =
        some (Json.obj [("a", Json.num 1)]))
    ∧ ∀ q ∈ [("a", Json.num 1)], endsWithS q.1 "_encrypted" = false :=
  ⟨⟨rfl, rfl, rfl, rfl⟩,
    c9_find_drops_encrypted_suffix_fields e0 s0 "b" "c" "d"
      (FS.mk [("b/c/d.json", Json.obj
        [("id", Json.str "d"), ("encrypted", Json.bool true),
          ("payload", Json.obj [("a", Json.num 1),
            ("b_encrypted", Json.str "junk")])])] [])
      [("id", Json.str "d"), ("encrypted", Json.bool true),
        ("payload", Json.obj [("a", Json.num 1),
          ("b_encrypted", Json.str "junk")])]
      [("id", Json.str "d"), ("payload", Json.obj [("a", Json.num 1)])]
      [("a", Json.num 1)] rfl rfl rfl rfl⟩
